import Mathlib

/-!
Verification development for the CSV data-validation and integration
pipeline (`data_validator.py`, `db_manager.py`, `json_exporter.py`,
`main.py`).

The Python source is shallowly embedded: pure row validation becomes pure
Lean functions on `Option String` raw fields; the SQLite store becomes
explicit lists of rows with the schema's key structure; the incremental
sync becomes a function from a store and a batch to an optional store
(`none` models an aborted transaction, e.g. a `NOT NULL` constraint
violation on staging).  Python floats are modelled as exact rationals
(decimal literals denote their exact decimal value); `datetime.date`
values are modelled by a year/month/day structure.
-/

namespace Pipeline

/-- Characters treated as whitespace by Python's `str.strip()` (ASCII
whitespace, also the class matched by `\s` inside `strptime` patterns). -/
def isPySpace (c : Char) : Bool :=
  c = ' ' ∨ c = '\t' ∨ c = '\n' ∨ c = '\r' ∨ c = '\x0b' ∨ c = '\x0c'

/-- `str.strip()` on a character list: drop whitespace from both ends. -/
def pyStripChars (cs : List Char) : List Char :=
  ((cs.dropWhile isPySpace).reverse.dropWhile isPySpace).reverse

/-- Python `str.strip()`. -/
def pyStrip (s : String) : String :=
  String.mk (pyStripChars s.data)

/-- Numeric value of a digit list (most significant first). -/
def natOfDigits (ds : List Char) : Nat :=
  ds.foldl (fun a c => a * 10 + (c.toNat - '0'.toNat)) 0

/-- Well-formedness of a digit group possibly containing underscores, as
accepted by Python's `int()` / `float()` literals: non-empty, starts and
ends with a digit, underscores only between digits.  The flag records
whether the previous character was a digit. -/
def digitGroupOk : Bool → List Char → Bool
  | prev, [] => prev
  | prev, '_' :: rest => prev && digitGroupOk false rest
  | _, c :: rest => c.isDigit && digitGroupOk true rest

/-- Digits of a group with the underscores removed. -/
def groupDigits (cs : List Char) : List Char :=
  cs.filter (fun c => c ≠ '_')

/-- Parse a non-empty digit group (Python integer literal body). -/
def parseDigitGroup (cs : List Char) : Option Nat :=
  if digitGroupOk false cs then some (natOfDigits (groupDigits cs)) else none

/-- Python `int(s)` on an already-stripped string: optional sign followed
by a digit group. -/
def pyInt (s : String) : Option Int :=
  match s.data with
  | '+' :: rest => (parseDigitGroup rest).map (fun n => (n : Int))
  | '-' :: rest => (parseDigitGroup rest).map (fun n => -(n : Int))
  | rest => (parseDigitGroup rest).map (fun n => (n : Int))

/-- Split a character list at the first occurrence of one of the given
characters; `none` if absent. -/
def splitAtFirst (sep : List Char) : List Char → Option (List Char × List Char)
  | [] => none
  | c :: rest =>
    if c ∈ sep then some ([], rest)
    else (splitAtFirst sep rest).map (fun p => (c :: p.1, p.2))

/-- Value of a float mantissa given integer part and fractional part
digit lists (underscores already removed). -/
def mantissaVal (intDs fracDs : List Char) : ℚ :=
  (natOfDigits intDs : ℚ) + (natOfDigits fracDs : ℚ) / (10 : ℚ) ^ fracDs.length

/-- Parse the unsigned body of a Python float literal: `D [. D?] [e±D]`
or `. D [e±D]`, each `D` a digit group possibly with underscores. -/
def pyFloatBody (cs : List Char) : Option ℚ := do
  let (mant, expPart) ←
    match splitAtFirst ['e', 'E'] cs with
    | some (m, e) => do
      let ev ←
        match e with
        | '+' :: r => (parseDigitGroup r).map (fun n => (n : Int))
        | '-' :: r => (parseDigitGroup r).map (fun n => -(n : Int))
        | r => (parseDigitGroup r).map (fun n => (n : Int))
      pure (m, ev)
    | none => pure (cs, (0 : Int))
  let base ←
    match splitAtFirst ['.'] mant with
    | some (ip, fp) =>
      if ip = [] ∧ fp = [] then none
      else if (ip = [] ∨ digitGroupOk false ip) ∧ (fp = [] ∨ digitGroupOk false fp) then
        some (mantissaVal (groupDigits ip) (groupDigits fp))
      else none
    | none =>
      if digitGroupOk false mant then some ((natOfDigits (groupDigits mant) : ℚ)) else none
  pure (base * (10 : ℚ) ^ expPart)

/-- Python `float(s)` on an already-stripped string, modelled as an exact
rational (`inf`/`nan` literals are outside the model). -/
def pyFloat (s : String) : Option ℚ :=
  match s.data with
  | '+' :: rest => pyFloatBody rest
  | '-' :: rest => (pyFloatBody rest).map (fun q => -q)
  | rest => pyFloatBody rest

/-- A calendar date as produced by `datetime.strptime(...).date()`. -/
structure PyDate where
  year : Nat
  month : Nat
  day : Nat
deriving DecidableEq, Repr

/-- Gregorian leap-year rule used by `datetime`. -/
def isLeapYear (y : Nat) : Bool :=
  y % 4 = 0 && (y % 100 ≠ 0 || y % 400 = 0)

/-- Days in a month, as validated by the `datetime` constructor. -/
def daysInMonth (y m : Nat) : Nat :=
  if m = 2 then (if isLeapYear y then 29 else 28)
  else if m = 4 ∨ m = 6 ∨ m = 9 ∨ m = 11 then 30
  else 31

/-- The `datetime` constructor's validity check (`MINYEAR = 1`,
`MAXYEAR = 9999`; month and day bounds). -/
def mkDate (y m d : Nat) : Option PyDate :=
  if 1 ≤ y ∧ y ≤ 9999 ∧ 1 ≤ m ∧ m ≤ 12 ∧ 1 ≤ d ∧ d ≤ daysInMonth y m then
    some ⟨y, m, d⟩
  else none

/-- Read a 1–2 digit number in `1..hi` at the head of the input, as the
`strptime` directives `%d` / `%m` match (the following pattern element is
never a digit, so the maximal digit run must itself be 1 or 2 long). -/
def readNum2 (hi : Nat) (cs : List Char) : Option (Nat × List Char) :=
  let ds := cs.takeWhile Char.isDigit
  let rest := cs.dropWhile Char.isDigit
  if (ds.length = 1 ∨ ds.length = 2) ∧ 1 ≤ natOfDigits ds ∧ natOfDigits ds ≤ hi then
    some (natOfDigits ds, rest)
  else none

/-- Read exactly four digits, as the `strptime` directive `%Y` matches. -/
def readYear4 (cs : List Char) : Option (Nat × List Char) :=
  let ds := cs.takeWhile Char.isDigit
  let rest := cs.dropWhile Char.isDigit
  if ds.length = 4 then some (natOfDigits ds, rest) else none

/-- Expect a literal character at the head of the input. -/
def expectChar (c : Char) : List Char → Option (List Char)
  | [] => none
  | x :: rest => if x = c then some rest else none

/-- Expect a non-empty whitespace run (`strptime` turns a space in the
format into `\s+`). -/
def expectSpaces (cs : List Char) : Option (List Char) :=
  match cs.takeWhile isPySpace with
  | [] => none
  | _ => some (cs.dropWhile isPySpace)

/-- Full English month names with their numbers, as matched
case-insensitively by the `strptime` directive `%B`. -/
def monthNames : List (List Char × Nat) :=
  [("january".data, 1), ("february".data, 2), ("march".data, 3),
   ("april".data, 4), ("may".data, 5), ("june".data, 6),
   ("july".data, 7), ("august".data, 8), ("september".data, 9),
   ("october".data, 10), ("november".data, 11), ("december".data, 12)]

/-- Match a full month name (case-insensitively) at the head of the
input; no English month name is a prefix of another, so the match is
unambiguous. -/
def readMonthName (cs : List Char) : Option (Nat × List Char) :=
  (monthNames.find? (fun p => p.1.isPrefixOf (cs.map Char.toLower))).map
    (fun p => (p.2, cs.drop p.1.length))

/-- `strptime` with format `"%Y-%m-%d"` followed by `.date()`. -/
def parseISO (s : String) : Option PyDate := do
  let (y, r1) ← readYear4 s.data
  let r2 ← expectChar '-' r1
  let (m, r3) ← readNum2 12 r2
  let r4 ← expectChar '-' r3
  let (d, r5) ← readNum2 31 r4
  if r5 = [] then mkDate y m d else none

/-- `strptime` with format `"%d/%m/%Y"`. -/
def parseDMY (s : String) : Option PyDate := do
  let (d, r1) ← readNum2 31 s.data
  let r2 ← expectChar '/' r1
  let (m, r3) ← readNum2 12 r2
  let r4 ← expectChar '/' r3
  let (y, r5) ← readYear4 r4
  if r5 = [] then mkDate y m d else none

/-- `strptime` with format `"%Y/%m/%d"`. -/
def parseYMD (s : String) : Option PyDate := do
  let (y, r1) ← readYear4 s.data
  let r2 ← expectChar '/' r1
  let (m, r3) ← readNum2 12 r2
  let r4 ← expectChar '/' r3
  let (d, r5) ← readNum2 31 r4
  if r5 = [] then mkDate y m d else none

/-- `strptime` with format `"%B %d %Y"` (full month name). -/
def parseBdY (s : String) : Option PyDate := do
  let (m, r1) ← readMonthName s.data
  let r2 ← expectSpaces r1
  let (d, r3) ← readNum2 31 r2
  let r4 ← expectSpaces r3
  let (y, r5) ← readYear4 r4
  if r5 = [] then mkDate y m d else none

/-- The ordered list of formats tried by `_parse_date`. -/
def dateFormats : List (String → Option PyDate) :=
  [parseISO, parseDMY, parseYMD, parseBdY]

/-- First successful parse from a list of parsers. -/
def firstSome (fs : List (String → Option PyDate)) (s : String) : Option PyDate :=
  match fs with
  | [] => none
  | f :: rest =>
    match f s with
    | some d => some d
    | none => firstSome rest s

/-- A raw CSV row after header normalisation: each canonical field is
either absent/`None` or the raw cell string (`row.get(...)`). -/
structure RawRow where
  customer_id : Option String
  order_id : Option String
  item : Option String
  quantity : Option String
  unit_price : Option String
  date : Option String
deriving DecidableEq, Repr

/-- The normalized row produced by `_validate_row` (and possibly
re-marked by the duplicate detector). -/
structure ValidatedRecord where
  customer_id : Option String
  order_id : Option String
  item : Option String
  quantity : Option Int
  unit_price : Option ℚ
  date : Option PyDate
  is_valid : Bool
  error_message : Option String
deriving DecidableEq, Repr

/-- `_parse_string_field`: `None`/blank becomes `None`, else the trimmed
string. -/
def _parse_string_field (value : Option String) : Option String :=
  match value with
  | none => none
  | some s => if pyStrip s = "" then none else some (pyStrip s)

/-- `_parse_int_field`: `None`/blank becomes `None`, else `int(...)` of
the trimmed string (parse failure also gives `None`). -/
def _parse_int_field (value : Option String) : Option Int :=
  match value with
  | none => none
  | some s => if pyStrip s = "" then none else pyInt (pyStrip s)

/-- `_parse_float_field`: `None`/blank becomes `None`, else `float(...)`
of the trimmed string (parse failure also gives `None`). -/
def _parse_float_field (value : Option String) : Option ℚ :=
  match value with
  | none => none
  | some s => if pyStrip s = "" then none else pyFloat (pyStrip s)

/-- `_parse_date`: falsy input gives `None`; otherwise the four formats
are tried in order on the trimmed string and the first success wins. -/
def _parse_date (value : Option String) : Option PyDate :=
  match value with
  | none => none
  | some s => if s = "" then none else firstSome dateFormats (pyStrip s)

/-- The error strings accumulated by `_validate_row`, in source order. -/
def rowErrors (row : RawRow) : List String :=
  (if _parse_string_field row.customer_id = none then ["Invalid or missing customer_id"] else [])
    ++ (if _parse_string_field row.order_id = none then ["Invalid or missing order_id"] else [])
    ++ (if _parse_string_field row.item = none then ["Invalid or missing item"] else [])
    ++ (if _parse_int_field row.quantity = none then ["Invalid or missing quantity"] else [])
    ++ (if _parse_float_field row.unit_price = none then ["Invalid or missing unit_price"] else [])
    ++ (if _parse_date row.date = none then ["Invalid or missing date"] else [])

/-- `_validate_row`: parse every field, accumulate errors, join them with
`"; "`. -/
def _validate_row (row : RawRow) : ValidatedRecord :=
  { customer_id := _parse_string_field row.customer_id
    order_id := _parse_string_field row.order_id
    item := _parse_string_field row.item
    quantity := _parse_int_field row.quantity
    unit_price := _parse_float_field row.unit_price
    date := _parse_date row.date
    is_valid := rowErrors row |>.isEmpty
    error_message :=
      if rowErrors row |>.isEmpty then none
      else some (String.intercalate "; " (rowErrors row)) }

/-- The duplicate message installed by `valid_order_rows_flexible`. -/
def dupMessage : String := "Duplicate order_id and item"

/-- The per-row loop of `valid_order_rows_flexible`: validate, then for
valid rows check the `(order_id, item)` key against the keys already seen
among prior valid rows of the batch. -/
def dedupGo (rows : List RawRow) (seen : List (Option String × Option String)) :
    List ValidatedRecord :=
  match rows with
  | [] => []
  | r :: rest =>
    let v := _validate_row r
    if v.is_valid then
      let key := (v.order_id, v.item)
      if key ∈ seen then
        { v with is_valid := false, error_message := some dupMessage } :: dedupGo rest seen
      else
        v :: dedupGo rest (key :: seen)
    else
      v :: dedupGo rest seen

/-- `valid_order_rows_flexible` restricted to its pure part: the CSV file
has already been read into a list of normalized raw rows; the generator
yields one `ValidatedRecord` per row. -/
def valid_order_rows_flexible (rows : List RawRow) : List ValidatedRecord :=
  dedupGo rows []

/-- The sentinel substituted for a falsy item by `_upsert_order_item`. -/
def BLANK_ITEM : String := "__BLANK_ITEM__"

/-- `row['item'] or "__BLANK_ITEM__"`: `None` and the empty string are
falsy in Python. -/
def normItem (item : Option String) : String :=
  match item with
  | none => BLANK_ITEM
  | some s => if s = "" then BLANK_ITEM else s

/-- A row of the `orders` table.  `order_id` is `NOT NULL PRIMARY KEY`;
dates are stored by their calendar value. -/
structure OrderRow where
  order_id : String
  customer_id : Option String
  order_date : Option PyDate
deriving DecidableEq, Repr

/-- A row of the `order_items` table.  The code only ever inserts a
non-null `item` (it normalises falsy items to the sentinel), so the item
key is a plain string here. -/
structure ItemRow where
  order_id : String
  item : String
  quantity : Option Int
  unit_price : Option ℚ
  is_valid : Bool
  error_message : Option String
deriving DecidableEq, Repr

/-- A row of the `staging_order_items` table: `order_id` is `NOT NULL`,
but `item` is a nullable key column. -/
structure StagingRow where
  order_id : String
  item : Option String
  quantity : Option Int
  unit_price : Option ℚ
  is_valid : Bool
  error_message : Option String
  customer_id : Option String
  order_date : Option PyDate
deriving DecidableEq, Repr

/-- The persisted production tables. -/
structure Store where
  orders : List OrderRow
  order_items : List ItemRow
deriving DecidableEq, Repr

/-- The staging row built from one validated record (given its non-null
`order_id`). -/
def mkStagingRow (oid : String) (r : ValidatedRecord) : StagingRow :=
  { order_id := oid, item := r.item, quantity := r.quantity,
    unit_price := r.unit_price, is_valid := r.is_valid,
    error_message := r.error_message, customer_id := r.customer_id,
    order_date := r.date }

/-- One `INSERT ... ON CONFLICT(order_id, item) DO UPDATE` into staging.
A `None` `order_id` violates the `NOT NULL` constraint and aborts
(`none`).  SQLite treats `NULL`s in a unique index as distinct, so a row
with a `NULL` item never conflicts and is appended; a non-null repeated
key updates the existing row in place (last write wins).  Keys are
compared as raw strings here, while the `order_id` column's INTEGER
affinity makes SQLite compare coerced values (`"01"` conflicts with
`"1"`); content theorems therefore restrict to canonical integer keys,
on which the coercion is the identity. -/
def stageInsert (st : List StagingRow) (r : ValidatedRecord) :
    Option (List StagingRow) :=
  match r.order_id with
  | none => none
  | some oid =>
    match r.item with
    | none => some (st ++ [mkStagingRow oid r])
    | some it =>
      if st.any (fun t => t.order_id = oid ∧ t.item = some it) then
        some (st.map (fun t =>
          if t.order_id = oid ∧ t.item = some it then mkStagingRow oid r else t))
      else
        some (st ++ [mkStagingRow oid r])

/-- Load the whole batch into the (freshly created, hence empty) staging
table; `none` models the aborting `IntegrityError`. -/
def stageBatch (batch : List ValidatedRecord) : Option (List StagingRow) :=
  batch.foldlM stageInsert []

/-- `_upsert_order`: insert, or on conflict overwrite `customer_id` and
`order_date`.  Updates rewrite the keyed row in place (the primary key
makes it unique).  The rowid-alias integer check of `orders.order_id`
(`datatype mismatch` on non-integer text) is enforced once for the whole
staged batch in `_incremental_sync`; this step assumes an accepted
key. -/
def upsertOrder (orders : List OrderRow) (oid : String)
    (cust : Option String) (d : Option PyDate) : List OrderRow :=
  if orders.any (fun o => o.order_id = oid) then
    orders.map (fun o =>
      if o.order_id = oid then { o with customer_id := cust, order_date := d } else o)
  else
    orders ++ [⟨oid, cust, d⟩]

/-- `_upsert_order_item`: normalise the item, insert, or on conflict
overwrite `quantity`, `unit_price`, `is_valid`, `error_message`. -/
def upsertOrderItem (items : List ItemRow) (oid : String) (item : Option String)
    (q : Option Int) (p : Option ℚ) (v : Bool) (e : Option String) : List ItemRow :=
  let it := normItem item
  if items.any (fun r => r.order_id = oid ∧ r.item = it) then
    items.map (fun r =>
      if r.order_id = oid ∧ r.item = it then
        { r with quantity := q, unit_price := p, is_valid := v, error_message := e }
      else r)
  else
    items ++ [⟨oid, it, q, p, v, e⟩]

/-- Step 3 of `_incremental_sync`: for every staging row (in rowid
order), upsert the order and the order item. -/
def upsertAll (s : Store) (st : List StagingRow) : Store :=
  st.foldl (fun acc t =>
    { orders := upsertOrder acc.orders t.order_id t.customer_id t.order_date,
      order_items := upsertOrderItem acc.order_items t.order_id t.item
        t.quantity t.unit_price t.is_valid t.error_message }) s

/-- The predicate under which step 4's
`DELETE ... WHERE (order_id, item) NOT IN (SELECT ... FROM staging)`
KEEPS a production row.  SQL three-valued logic: the row is deleted only
when `NOT IN` is true, i.e. when every staging row compares unequal; a
staging row with a `NULL` item and the same `order_id` makes the
comparison `NULL`, which blocks the delete. -/
def keepItem (st : List StagingRow) (r : ItemRow) : Bool :=
  st.any (fun t => t.order_id = r.order_id ∧ (t.item = none ∨ t.item = some r.item))

/-- Step 4: delete the order items whose key is (definitely) absent from
staging. -/
def deleteMissing (s : Store) (st : List StagingRow) : Store :=
  { s with order_items := s.order_items.filter (keepItem st) }

/-- Step 5: delete orders with no remaining items. -/
def deleteOrphans (s : Store) : Store :=
  { s with orders :=
      s.orders.filter (fun o => s.order_items.any (fun r => r.order_id = o.order_id)) }

/-- Steps 3–5 of `_incremental_sync` given the loaded staging table:
upsert everything, delete missing items, then orphaned orders. -/
def syncStore (s : Store) (st : List StagingRow) : Store :=
  deleteOrphans (deleteMissing (upsertAll s st) st)

/-- The exponent tail of SQLite numeric text: `sign? D+ ws*`.  Carries
the already-read sign, mantissa value and fraction length through. -/
def sqliteExpParts (neg : Bool) (m f : Nat) (cs : List Char) :
    Option (Bool × Nat × Nat × Int) :=
  let sgn : Bool × List Char :=
    match cs with
    | '-' :: rest => (true, rest)
    | '+' :: rest => (false, rest)
    | _ => (false, cs)
  let ds := sgn.2.takeWhile Char.isDigit
  let rest := sgn.2.dropWhile Char.isDigit
  if ds.length = 0 then none
  else if rest.dropWhile isPySpace = [] then
    some (neg, m, f, if sgn.1 then -(natOfDigits ds : Int) else (natOfDigits ds : Int))
  else none

/-- SQLite numeric text, `ws* sign? (D+ (. D*)? | . D+) ([eE] sign? D+)? ws*`
(the grammar `sqlite3Atoi64` / `sqlite3AtoF` accept when a column's
INTEGER affinity converts text; SQLite's whitespace set coincides with
`isPySpace`).  Returns the sign, the mantissa digits' value, the number
of fraction digits and the signed decimal exponent; `none` when the text
is not a well-formed numeric literal. -/
def sqliteNumParts (a : String) : Option (Bool × Nat × Nat × Int) :=
  let cs0 := a.toList.dropWhile isPySpace
  let sgn : Bool × List Char :=
    match cs0 with
    | '-' :: rest => (true, rest)
    | '+' :: rest => (false, rest)
    | _ => (false, cs0)
  let ip := sgn.2.takeWhile Char.isDigit
  let cs2 := sgn.2.dropWhile Char.isDigit
  let frac : List Char × List Char :=
    match cs2 with
    | '.' :: rest => (rest.takeWhile Char.isDigit, rest.dropWhile Char.isDigit)
    | _ => ([], cs2)
  if ip.length + frac.1.length = 0 then none
  else
    match frac.2 with
    | 'e' :: rest => sqliteExpParts sgn.1 (natOfDigits (ip ++ frac.1)) frac.1.length rest
    | 'E' :: rest => sqliteExpParts sgn.1 (natOfDigits (ip ++ frac.1)) frac.1.length rest
    | rest =>
      if rest.dropWhile isPySpace = [] then
        some (sgn.1, natOfDigits (ip ++ frac.1), frac.1.length, 0)
      else none

/-- The 64-bit integer a text value coerces to when inserted into the
rowid-aliased `orders.order_id` column (`INTEGER NOT NULL PRIMARY KEY`).
SQLite converts the text by numeric affinity and requires an integral
result in the signed 64-bit range; otherwise the `INSERT` raises
`IntegrityError: datatype mismatch` and the sync aborts.  Real literals
are read at their exact decimal value (the same idealisation this file
uses elsewhere for floats). -/
def sqliteRowidInt (a : String) : Option Int :=
  match sqliteNumParts a with
  | none => none
  | some (neg, m, f, e) =>
    let E : Int := e - (f : Int)
    match (if 0 ≤ E then some (m * 10 ^ E.toNat)
           else if m % 10 ^ (-E).toNat = 0 then some (m / 10 ^ (-E).toNat)
           else none : Option Nat) with
    | none => none
    | some n =>
      let vi : Int := if neg then -(n : Int) else (n : Int)
      if -(2 ^ 63) ≤ vi ∧ vi < 2 ^ 63 then some vi else none

/-- Whether a text `order_id` is accepted by the rowid-aliased
`orders.order_id` column (otherwise the upsert loop aborts the sync). -/
def intLikeKey (a : String) : Bool :=
  (sqliteRowidInt a).isSome

/-- A canonical integer key: text whose SQLite integer coercion renders
back to the text itself.  On canonical keys the INTEGER-affinity
coercion of the `order_id` columns is the identity, so the model's
raw-string keying coincides with the stored keys; theorems about
persisted row content restrict their key hypotheses accordingly. -/
def canonIntKey (a : String) : Bool :=
  match sqliteRowidInt a with
  | some n => a = toString n
  | none => false

/-- `_incremental_sync` as a state transformer on the production tables:
stage the batch (aborting on a `NULL` `order_id`), then — since the
upsert loop inserts every staged `order_id` into the rowid-aliased
`orders.order_id` column — abort with `datatype mismatch` when any
staged `order_id` text does not coerce to a 64-bit integer; otherwise
upsert everything, delete missing items, then orphaned orders.
(Clearing staging does not touch the production tables.) -/
def _incremental_sync (s : Store) (batch : List ValidatedRecord) : Option Store :=
  match stageBatch batch with
  | none => none
  | some st =>
    if st.all (fun t => intLikeKey t.order_id) then some (syncStore s st) else none

/-- The production tables after running a sync: on abort the transaction
rolls back and the prior tables remain. -/
def applySync (s : Store) (batch : List ValidatedRecord) : Store :=
  (_incremental_sync s batch).getD s

/-- The composite key of a production item row. -/
def itemKey (r : ItemRow) : String × String := (r.order_id, r.item)

/-- Lookup of an item row by its `(order_id, item)` key. -/
def itemLookup (items : List ItemRow) (k : String × String) : Option ItemRow :=
  items.find? (fun r => itemKey r = k)

/-- Lookup of an order row by `order_id`. -/
def orderLookup (orders : List OrderRow) (oid : String) : Option OrderRow :=
  orders.find? (fun o => o.order_id = oid)

/-- Key uniqueness as enforced by the schema (`PRIMARY KEY` on orders,
`UNIQUE(order_id, item)` on items). -/
def wellFormed (s : Store) : Prop :=
  (s.orders.map OrderRow.order_id).Nodup ∧ (s.order_items.map itemKey).Nodup

/-- The production key a staging row maps to when upserted (its item is
normalised). -/
def prodKeyOf (t : StagingRow) : String × String :=
  (t.order_id, normItem t.item)

/-- The production item row written for a staging row. -/
def mkItemRowFrom (t : StagingRow) : ItemRow :=
  ⟨t.order_id, normItem t.item, t.quantity, t.unit_price, t.is_valid, t.error_message⟩

/-- The order row written for a staging row. -/
def mkOrderRowFrom (t : StagingRow) : OrderRow :=
  ⟨t.order_id, t.customer_id, t.order_date⟩

/-- The last staging row (in rowid order) mapping to a given production
item key: its values are the ones that survive the upsert loop. -/
def stagedLastItem (st : List StagingRow) (k : String × String) : Option StagingRow :=
  st.reverse.find? (fun t => prodKeyOf t = k)

/-- The last staging row (in rowid order) for a given `order_id`: its
customer and date survive the order-upsert loop. -/
def stagedLastOrder (st : List StagingRow) (oid : String) : Option StagingRow :=
  st.reverse.find? (fun t => t.order_id = oid)

/-- `keepItem` as a predicate on the production key alone. -/
def keepKey (st : List StagingRow) (k : String × String) : Bool :=
  st.any (fun t => t.order_id = k.1 ∧ (t.item = none ∨ t.item = some k.2))

/-- The item-upsert step of the production loop, on the items list. -/
def upsertItemStep (items : List ItemRow) (t : StagingRow) : List ItemRow :=
  upsertOrderItem items t.order_id t.item t.quantity t.unit_price t.is_valid t.error_message

/-- The order-upsert step of the production loop, on the orders list. -/
def upsertOrderStep (orders : List OrderRow) (t : StagingRow) : List OrderRow :=
  upsertOrder orders t.order_id t.customer_id t.order_date

/-- The filter of `_get_total_order_values` and of the export total:
non-placeholder item, non-null quantity and unit price.  Validity is not
consulted. -/
def qualifies (r : ItemRow) : Bool :=
  r.item ≠ BLANK_ITEM ∧ r.quantity ≠ none ∧ r.unit_price ≠ none

/-- `quantity * unit_price` of a row (the callers only apply this under
non-null filters, where the defaults never fire). -/
def rowValue (r : ItemRow) : ℚ :=
  ((r.quantity.getD 0 : Int) : ℚ) * r.unit_price.getD 0

/-- The summand set of an order's total: its qualifying item rows. -/
def qualifyingItems (s : Store) (oid : String) : List ItemRow :=
  s.order_items.filter (fun r => r.order_id = oid ∧ qualifies r)

/-- The monetary total of one order over its qualifying rows. -/
def orderTotalSum (s : Store) (oid : String) : ℚ :=
  ((qualifyingItems s oid).map rowValue).sum

/-- `_get_total_order_values`: join orders with qualifying items, group
by `order_id`, sum `quantity * unit_price`.  Orders whose join group is
empty produce no output row. -/
def _get_total_order_values (s : Store) : List (String × Option String × ℚ) :=
  s.orders.filterMap (fun o =>
    if (qualifyingItems s o.order_id).isEmpty then none
    else some (o.order_id, o.customer_id, orderTotalSum s o.order_id))

/-- The joined `(customer_id, quantity * unit_price)` pairs of
`_get_top_customer`: every item row with non-null quantity and price
(placeholder items included), tagged with its order's customer. -/
def customerPairs (s : Store) : List (Option String × ℚ) :=
  s.orders.flatMap (fun o =>
    (s.order_items.filter (fun r =>
      r.order_id = o.order_id ∧ r.quantity ≠ none ∧ r.unit_price ≠ none)).map
      (fun r => (o.customer_id, rowValue r)))

/-- Distinct first components in order of first appearance (the grouping
keys of `GROUP BY customer_id`). -/
def distinctKeys (l : List (Option String × ℚ)) : List (Option String) :=
  l.foldl (fun acc p => if p.1 ∈ acc then acc else acc ++ [p.1]) []

/-- The spend of one customer over the joined pairs. -/
def custSpendSum (s : Store) (c : Option String) : ℚ :=
  (((customerPairs s).filter (fun p => p.1 = c)).map Prod.snd).sum

/-- The grouped totals underlying `_get_top_customer`. -/
def custTotals (s : Store) : List (Option String × ℚ) :=
  (distinctKeys (customerPairs s)).map (fun c => (c, custSpendSum s c))

/-- `_get_top_customer`: the grouped totals ordered descending, first
row.  Ties are broken by the underlying ordering; the model keeps the
first group attaining the maximum. -/
def _get_top_customer (s : Store) : Option (Option String × ℚ) :=
  (custTotals s).foldl (fun acc e =>
    match acc with
    | none => some e
    | some a => if e.2 > a.2 then some e else acc) none

/-- Python `round(x, 2)` modelled on exact rationals. -/
def round2 (x : ℚ) : ℚ :=
  (round (x * 100) : ℚ) / 100

/-- One element of the exported JSON array. -/
structure ExportRecord where
  order_id : String
  customer_id : Option String
  date : Option PyDate
  total_price : ℚ
  items : List (String × Option Int × Option ℚ × Bool × Option String)
deriving DecidableEq, Repr

/-- The items listed for one order by `export_json` (all of them, valid
or not). -/
def exportItemsOf (s : Store) (oid : String) : List ItemRow :=
  s.order_items.filter (fun r => r.order_id = oid)

/-- The export element built for one order row: skipped when the order
has no active items, else carrying all its items and the rounded total
over the non-blank fully priced ones. -/
def exportRecOf (s : Store) (o : OrderRow) : Option ExportRecord :=
  let items := exportItemsOf s o.order_id
  if items.isEmpty then none
  else some
    { order_id := o.order_id
      customer_id := o.customer_id
      date := o.order_date
      total_price := round2 (((items.filter qualifies).map rowValue).sum)
      items := items.map (fun r =>
        (r.item, r.quantity, r.unit_price, r.is_valid, r.error_message)) }

/-- `export_json` as a pure projection: one element per order that has at
least one item; the total sums `quantity * unit_price` over non-blank
fully priced items and is rounded to two decimals; the items list keeps
every row with its validity flag and message. -/
def export_json (s : Store) : List ExportRecord :=
  s.orders.filterMap (exportRecOf s)

/-- Rewrite the validity verdicts of every item row (keeping keys,
quantities and prices): used to state that the monetary queries never
consult `is_valid` / `error_message`. -/
def mapValidity (f : ItemRow → Bool) (g : ItemRow → Option String) (s : Store) : Store :=
  { s with order_items :=
      s.order_items.map (fun r => { r with is_valid := f r, error_message := g r }) }

/-- The full database state seen by the connection: the production tables
plus the staging table. -/
structure FullState where
  orders : List OrderRow
  order_items : List ItemRow
  staging : List StagingRow
deriving DecidableEq, Repr

/-- The production-table part of a full state. -/
def prodOf (f : FullState) : Store :=
  ⟨f.orders, f.order_items⟩

/-- The primitive database statements executed by `setup_database` /
`_incremental_sync`, with the two `commit()` calls (the mid-sync one
after loading staging, and the final one in `setup_database`). -/
inductive DbOp where
  | dropStaging : DbOp
  | stageRow : ValidatedRecord → DbOp
  | commitOp : DbOp
  | upsertProd : StagingRow → DbOp
  | delMissing : DbOp
  | delOrphans : DbOp
  | clearStaging : DbOp
deriving DecidableEq, Repr

/-- Apply one statement to the pending state.  A statement that fails its
constraint check (`stageRow` with a `NULL` `order_id`) leaves the pending
state unchanged — the surrounding process then aborts, which the theorems
model by stopping at an arbitrary prefix. -/
def applyOp (f : FullState) : DbOp → FullState
  | .dropStaging => { f with staging := [] }
  | .stageRow r => { f with staging := (stageInsert f.staging r).getD f.staging }
  | .commitOp => f
  | .upsertProd t =>
      { f with
        orders := upsertOrder f.orders t.order_id t.customer_id t.order_date,
        order_items := upsertOrderItem f.order_items t.order_id t.item
          t.quantity t.unit_price t.is_valid t.error_message }
  | .delMissing => { f with order_items := f.order_items.filter (keepItem f.staging) }
  | .delOrphans =>
      { f with orders :=
          f.orders.filter (fun o => f.order_items.any (fun r => r.order_id = o.order_id)) }
  | .clearStaging => { f with staging := [] }

/-- One step on the pair (committed state, pending state): `commit`
publishes the pending state; every other statement mutates only the
pending state. -/
def dbStep (cp : FullState × FullState) (op : DbOp) : FullState × FullState :=
  match op with
  | .commitOp => (cp.2, cp.2)
  | _ => (cp.1, applyOp cp.2 op)

/-- The staging content built by the loading loop (failed inserts leave
staging unchanged; on an abort the later statements never run, which the
theorems cover by quantifying over prefixes). -/
def stagingContent (batch : List ValidatedRecord) : List StagingRow :=
  batch.foldl (fun st r => (stageInsert st r).getD st) []

/-- The statement sequence of one incremental-sync run, mirroring
`_incremental_sync` (steps 1–6) inside `setup_database`: recreate
staging, load the batch, `commit()` (line 111), upsert production from
staging, the two deletes, clear staging, and the final `conn.commit()`. -/
def syncOps (batch : List ValidatedRecord) : List DbOp :=
  [DbOp.dropStaging] ++ batch.map DbOp.stageRow ++ [DbOp.commitOp]
    ++ (stagingContent batch).map DbOp.upsertProd
    ++ [DbOp.delMissing, DbOp.delOrphans, DbOp.clearStaging, DbOp.commitOp]

/-- The committed state after executing the first `k` statements of the
run and then aborting. -/
def committedAfter (f0 : FullState) (batch : List ValidatedRecord) (k : Nat) : FullState :=
  (((syncOps batch).take k).foldl dbStep (f0, f0)).1

/-- A dynamically typed Python value, as held by the fields of a row
dictionary. -/
inductive PyVal where
  | pstr : String → PyVal
  | pint : Int → PyVal
  | pfloat : ℚ → PyVal
  | pdate : PyDate → PyVal
  | pnone : PyVal
deriving DecidableEq, Repr

/-- Python truthiness of the modelled values. -/
def pyTruthy : PyVal → Bool
  | .pstr s => s ≠ ""
  | .pint n => n ≠ 0
  | .pfloat q => q ≠ 0
  | .pdate _ => true
  | .pnone => false

/-- A row dictionary whose field values may be of any runtime type (as
when a `ValidatedRecord` is fed back into `_validate_row`). -/
structure PyRow where
  customer_id : PyVal
  order_id : PyVal
  item : PyVal
  quantity : PyVal
  unit_price : PyVal
  date : PyVal
deriving DecidableEq, Repr

/-- `_parse_string_field` on a runtime value: `None` short-circuits, a
string is parsed, anything else raises `AttributeError` at
`value.strip()` (modelled by `Except.error`). -/
def pyvalString : PyVal → Except Unit (Option String)
  | .pnone => .ok none
  | .pstr s => .ok (if pyStrip s = "" then none else some (pyStrip s))
  | _ => .error ()

/-- `_parse_int_field` on a runtime value: the `value.strip()` in the
guard raises `AttributeError` on non-strings (that call sits outside the
`try`, whose handler in any case only catches `ValueError`/`TypeError`). -/
def pyvalInt : PyVal → Except Unit (Option Int)
  | .pnone => .ok none
  | .pstr s => .ok (if pyStrip s = "" then none else pyInt (pyStrip s))
  | _ => .error ()

/-- `_parse_float_field` on a runtime value. -/
def pyvalFloat : PyVal → Except Unit (Option ℚ)
  | .pnone => .ok none
  | .pstr s => .ok (if pyStrip s = "" then none else pyFloat (pyStrip s))
  | _ => .error ()

/-- `_parse_date` on a runtime value: falsy values give `None`; a truthy
non-string raises `AttributeError` at `value.strip()` (the handler only
catches `ValueError`/`TypeError`). -/
def pyvalDate (v : PyVal) : Except Unit (Option PyDate) :=
  if pyTruthy v then
    match v with
    | .pstr s => .ok (firstSome dateFormats (pyStrip s))
    | _ => .error ()
  else .ok none

/-- `_validate_row` on a dynamically typed row: the six fields are parsed
in source order and the first raised exception propagates. -/
def validateRowPy (row : PyRow) : Except Unit ValidatedRecord := do
  let cust ← pyvalString row.customer_id
  let oid ← pyvalString row.order_id
  let item ← pyvalString row.item
  let q ← pyvalInt row.quantity
  let p ← pyvalFloat row.unit_price
  let d ← pyvalDate row.date
  let errs :=
    (if cust = none then ["Invalid or missing customer_id"] else [])
      ++ (if oid = none then ["Invalid or missing order_id"] else [])
      ++ (if item = none then ["Invalid or missing item"] else [])
      ++ (if q = none then ["Invalid or missing quantity"] else [])
      ++ (if p = none then ["Invalid or missing unit_price"] else [])
      ++ (if d = none then ["Invalid or missing date"] else [])
  .ok { customer_id := cust, order_id := oid, item := item, quantity := q,
        unit_price := p, date := d, is_valid := errs.isEmpty,
        error_message := if errs.isEmpty then none
                         else some (String.intercalate "; " errs) }

/-- The runtime value of an optional string field. -/
def pyOfStr : Option String → PyVal
  | none => .pnone
  | some s => .pstr s

/-- The runtime value of an optional integer field. -/
def pyOfInt : Option Int → PyVal
  | none => .pnone
  | some n => .pint n

/-- The runtime value of an optional float field. -/
def pyOfRat : Option ℚ → PyVal
  | none => .pnone
  | some q => .pfloat q

/-- The runtime value of an optional date field. -/
def pyOfDate : Option PyDate → PyVal
  | none => .pnone
  | some d => .pdate d

/-- A `ValidatedRecord` viewed as the row dictionary handed back to
`_validate_row` when re-validating it. -/
def recordAsPyRow (v : ValidatedRecord) : PyRow :=
  { customer_id := pyOfStr v.customer_id, order_id := pyOfStr v.order_id,
    item := pyOfStr v.item, quantity := pyOfInt v.quantity,
    unit_price := pyOfRat v.unit_price, date := pyOfDate v.date }

/-- Concrete prior store for the reconciliation counterexamples: order 1
with a single `Widget` item. -/
def exStore1 : Store :=
  { orders := [⟨"1", some "C9", some ⟨2025, 1, 1⟩⟩],
    order_items := [⟨"1", "Widget", some 2, some 5, true, none⟩] }

/-- The concrete prior store of `exStore1` with an empty staging table,
as a full connection state. -/
def exFullState : FullState :=
  { orders := [⟨"1", some "C9", some ⟨2025, 1, 1⟩⟩],
    order_items := [⟨"1", "Widget", some 2, some 5, true, none⟩],
    staging := [] }

/-- Concrete batch record whose `item` failed validation (hence `None`):
stages with a `NULL` item key. -/
def exRecNullItem : ValidatedRecord :=
  { customer_id := some "C9", order_id := some "1", item := none,
    quantity := some 2, unit_price := some 3, date := some ⟨2025, 6, 1⟩,
    is_valid := false, error_message := some "Invalid or missing item" }

/-- A fully valid raw row (used for the C4 duplicate counterexample and
the C9 witness). -/
def exValidRow : RawRow :=
  ⟨some "A1", some "7", some "Widget", some "2", some "9.99", some "2025-06-01"⟩

/-- `_validate_row` is valid exactly when all six parsed fields are
non-null. -/
theorem validate_row_is_valid_iff (row : RawRow) :
    (_validate_row row).is_valid = true ↔
      ((_validate_row row).customer_id ≠ none ∧ (_validate_row row).order_id ≠ none ∧
       (_validate_row row).item ≠ none ∧ (_validate_row row).quantity ≠ none ∧
       (_validate_row row).unit_price ≠ none ∧ (_validate_row row).date ≠ none) := by
  simp only [_validate_row, rowErrors, List.isEmpty_iff, List.append_eq_nil]
  constructor
  · intro h
    split_ifs at h <;> simp_all
  · intro h
    split_ifs <;> simp_all

/-- `_validate_row` leaves `error_message` null exactly when the row is
valid. -/
theorem validate_row_error_iff (row : RawRow) :
    (_validate_row row).error_message = none ↔ (_validate_row row).is_valid = true := by
  simp only [_validate_row]
  split_ifs <;> simp_all

/-- Every record yielded by the validation loop satisfies: validity
implies all six fields non-null, and a null `error_message` is equivalent
to validity (duplicate marking sets `is_valid := false` together with a
non-null message). -/
theorem dedupGo_invariant (rows : List RawRow)
    (seen : List (Option String × Option String)) (v : ValidatedRecord)
    (hv : v ∈ dedupGo rows seen) :
    (v.is_valid = true →
      v.customer_id ≠ none ∧ v.order_id ≠ none ∧ v.item ≠ none ∧
      v.quantity ≠ none ∧ v.unit_price ≠ none ∧ v.date ≠ none) ∧
    (v.error_message = none ↔ v.is_valid = true) := by
  induction rows generalizing seen with
  | nil => simp [dedupGo] at hv
  | cons r rest ih =>
    rw [dedupGo] at hv
    by_cases hval : (_validate_row r).is_valid = true
    · rw [if_pos hval] at hv
      by_cases hseen : ((_validate_row r).order_id, (_validate_row r).item) ∈ seen
      · rw [if_pos hseen] at hv
        rcases List.mem_cons.mp hv with h | h
        · subst h
          refine ⟨fun hfalse => ?_, ?_⟩
          · simp at hfalse
          · simp
        · exact ih _ h
      · rw [if_neg hseen] at hv
        rcases List.mem_cons.mp hv with h | h
        · subst h
          refine ⟨fun _ => ?_, validate_row_error_iff r⟩
          exact (validate_row_is_valid_iff r).mp hval
        · exact ih _ h
    · rw [if_neg hval] at hv
      rcases List.mem_cons.mp hv with h | h
      · subst h
        refine ⟨fun _ => (validate_row_is_valid_iff r).mp (by assumption), validate_row_error_iff r⟩
      · exact ih _ h

/-- C4 (counterexample): with two identical valid rows in one batch, the
second yielded record has all six required fields non-null and yet
`is_valid = false` — the claimed equivalence between validity and
non-null fields fails for records delivered by
`valid_order_rows_flexible`. -/
theorem c4_counterexample :
    ((valid_order_rows_flexible [exValidRow, exValidRow])[1]?).map
        (fun v => (v.is_valid,
          v.customer_id.isSome && v.order_id.isSome && v.item.isSome &&
            v.quantity.isSome && v.unit_price.isSome && v.date.isSome))
      = some (false, true) := by decide

/-- C4 (amended): for every record yielded by
`valid_order_rows_flexible`, validity implies all six required fields are
non-null, and `error_message` is null iff `is_valid`; the converse
implication (non-null fields imply validity) holds for `_validate_row`
output but not for duplicate-marked records. -/
theorem c4_yielded_record_invariant (rows : List RawRow) (v : ValidatedRecord)
    (hv : v ∈ valid_order_rows_flexible rows) :
    (v.is_valid = true →
      v.customer_id ≠ none ∧ v.order_id ≠ none ∧ v.item ≠ none ∧
      v.quantity ≠ none ∧ v.unit_price ≠ none ∧ v.date ≠ none) ∧
    (v.error_message = none ↔ v.is_valid = true) :=
  dedupGo_invariant rows [] v hv

/-- C4 (witness): the amended invariant instantiated on a concrete
one-row batch. -/
theorem c4_yielded_record_invariant_witness :
    ((_validate_row exValidRow).is_valid = true →
      (_validate_row exValidRow).customer_id ≠ none ∧
      (_validate_row exValidRow).order_id ≠ none ∧
      (_validate_row exValidRow).item ≠ none ∧
      (_validate_row exValidRow).quantity ≠ none ∧
      (_validate_row exValidRow).unit_price ≠ none ∧
      (_validate_row exValidRow).date ≠ none) ∧
    ((_validate_row exValidRow).error_message = none ↔
      (_validate_row exValidRow).is_valid = true) :=
  c4_yielded_record_invariant [exValidRow] (_validate_row exValidRow)
    (List.Mem.head _)

/-- C1 (code bug): syncing a batch whose only record has a `NULL` item
against a store holding order 1 with a `Widget` child leaves the stale
`("1", "Widget")` child in place (the `NOT IN` against a staging row with
a `NULL` item is never true), so the persisted child key set is
`{("1","Widget"), ("1","__BLANK_ITEM__")}` rather than exactly the staged
key set of the batch. -/
theorem c1_stale_child_survives :
    (applySync exStore1 [exRecNullItem]).order_items.map itemKey
        = [("1", "Widget"), ("1", BLANK_ITEM)] ∧
      (stagingContent [exRecNullItem]).map (fun t => (t.order_id, t.item))
        = [("1", none)] := by decide

/-- C9 (counterexample): re-validating an already-valid record raises
(`_parse_int_field` calls `.strip()` on the integer quantity, an
`AttributeError` its handler does not catch), instead of returning the
same record with no error. -/
theorem c9_counterexample :
    (_validate_row exValidRow).is_valid = true ∧
      validateRowPy (recordAsPyRow (_validate_row exValidRow)) = .error () := by
  refine ⟨by decide, ?_⟩
  rfl

/-- C9 (amended): for every raw row whose validation succeeds, feeding
the resulting record back into `_validate_row` raises an
`AttributeError`: the typed `quantity` is no longer a string, so the
`value.strip()` guard of `_parse_int_field` fails before any result is
returned. -/
theorem c9_revalidation_raises (row : RawRow)
    (h : (_validate_row row).is_valid = true) :
    validateRowPy (recordAsPyRow (_validate_row row)) = .error () := by
  obtain ⟨hc, ho, hi, hq, hp, hd⟩ := (validate_row_is_valid_iff row).mp h
  obtain ⟨c, hc⟩ := Option.ne_none_iff_exists'.mp hc
  obtain ⟨o, ho⟩ := Option.ne_none_iff_exists'.mp ho
  obtain ⟨i, hi⟩ := Option.ne_none_iff_exists'.mp hi
  obtain ⟨q, hq⟩ := Option.ne_none_iff_exists'.mp hq
  simp only [recordAsPyRow, hc, ho, hi, hq, pyOfStr, pyOfInt]
  rfl

/-- C9 (witness): the amended statement on a concrete valid row. -/
theorem c9_revalidation_raises_witness :
    validateRowPy (recordAsPyRow (_validate_row exValidRow)) = .error () :=
  c9_revalidation_raises exValidRow (by decide)

/-- Generic: `find?` by key commutes with a key-preserving map. -/
theorem find?_map_keyfix {α κ : Type} [DecidableEq κ] (key : α → κ) (g : α → α)
    (hg : ∀ a, key (g a) = key a) (l : List α) (k : κ) :
    (l.map g).find? (fun a => key a = k) = (l.find? (fun a => key a = k)).map g := by
  induction l with
  | nil => rfl
  | cons a t ih =>
    by_cases h : key a = k
    · rw [List.map_cons, List.find?_cons_of_pos _ (by simp [hg, h]),
        List.find?_cons_of_pos _ (by simp [h]), Option.map_some']
    · rw [List.map_cons, List.find?_cons_of_neg _ (by simp [hg, h]),
        List.find?_cons_of_neg _ (by simp [h]), ih]

/-- Generic: `find?` by key through a filter whose predicate depends only
on the key. -/
theorem find?_filter_keydep {α κ : Type} [DecidableEq κ] (key : α → κ) (Q : κ → Bool)
    (l : List α) (k : κ) :
    (l.filter (fun a => Q (key a))).find? (fun a => key a = k)
      = if Q k then l.find? (fun a => key a = k) else none := by
  induction l with
  | nil => simp
  | cons a t ih =>
    by_cases hQ : Q (key a) = true
    · rw [List.filter_cons_of_pos (by simpa using hQ)]
      by_cases hk : key a = k
      · rw [List.find?_cons_of_pos _ (by simp [hk]),
          if_pos (by rw [← hk]; exact hQ),
          List.find?_cons_of_pos _ (by simp [hk])]
      · rw [List.find?_cons_of_neg _ (by simp [hk]), ih,
          List.find?_cons_of_neg _ (by simp [hk])]
    · rw [List.filter_cons_of_neg (by simpa using hQ)]
      by_cases hk : key a = k
      · have hQk : ¬Q k = true := by rw [← hk]; simpa using hQ
        rw [ih, if_neg hQk, if_neg hQk]
      · rw [ih, List.find?_cons_of_neg _ (by simp [hk])]

/-- `itemLookup` commutes with a key-preserving row map. -/
theorem itemLookup_map_keyfix (g : ItemRow → ItemRow)
    (hg : ∀ r, itemKey (g r) = itemKey r) (items : List ItemRow) (k : String × String) :
    itemLookup (items.map g) k = (itemLookup items k).map g :=
  find?_map_keyfix itemKey g hg items k

/-- `itemLookup` through a key-dependent filter. -/
theorem itemLookup_filter_keydep (Q : String × String → Bool)
    (items : List ItemRow) (k : String × String) :
    itemLookup (items.filter (fun r => Q (itemKey r))) k
      = if Q k then itemLookup items k else none :=
  find?_filter_keydep itemKey Q items k

/-- `orderLookup` commutes with a key-preserving row map. -/
theorem orderLookup_map_keyfix (g : OrderRow → OrderRow)
    (hg : ∀ o, (g o).order_id = o.order_id) (orders : List OrderRow) (oid : String) :
    orderLookup (orders.map g) oid = (orderLookup orders oid).map g :=
  find?_map_keyfix OrderRow.order_id g hg orders oid

/-- `orderLookup` through a key-dependent filter. -/
theorem orderLookup_filter_keydep (Q : String → Bool)
    (orders : List OrderRow) (oid : String) :
    orderLookup (orders.filter (fun o => Q o.order_id)) oid
      = if Q oid then orderLookup orders oid else none :=
  find?_filter_keydep OrderRow.order_id Q orders oid

/-- A found item row carries the looked-up key. -/
theorem itemLookup_key {items : List ItemRow} {k : String × String} {r : ItemRow}
    (h : itemLookup items k = some r) : itemKey r = k := by
  have := List.find?_some h
  simpa using this

/-- A found item row is a member. -/
theorem itemLookup_mem {items : List ItemRow} {k : String × String} {r : ItemRow}
    (h : itemLookup items k = some r) : r ∈ items :=
  List.mem_of_find?_eq_some h

/-- The lookup succeeds exactly when some row carries the key. -/
theorem itemLookup_isSome_iff (items : List ItemRow) (k : String × String) :
    (itemLookup items k).isSome = true ↔ ∃ r ∈ items, itemKey r = k := by
  rw [itemLookup, List.find?_isSome]
  simp

/-- A found order row carries the looked-up key. -/
theorem orderLookup_key {orders : List OrderRow} {oid : String} {o : OrderRow}
    (h : orderLookup orders oid = some o) : o.order_id = oid := by
  have := List.find?_some h
  simpa using this

/-- A found order row is a member. -/
theorem orderLookup_mem {orders : List OrderRow} {oid : String} {o : OrderRow}
    (h : orderLookup orders oid = some o) : o ∈ orders :=
  List.mem_of_find?_eq_some h

/-- The order lookup succeeds exactly when some row carries the key. -/
theorem orderLookup_isSome_iff (orders : List OrderRow) (oid : String) :
    (orderLookup orders oid).isSome = true ↔ ∃ o ∈ orders, o.order_id = oid := by
  rw [orderLookup, List.find?_isSome]
  simp

/-- Appending one row, seen through item lookup. -/
theorem itemLookup_append_single (items : List ItemRow) (r : ItemRow)
    (k : String × String) :
    itemLookup (items ++ [r]) k
      = (itemLookup items k).or (if itemKey r = k then some r else none) := by
  rw [itemLookup, List.find?_append]
  congr 1
  by_cases h : itemKey r = k
  · rw [List.find?_cons_of_pos _ (by simp [h]), if_pos h]
  · rw [List.find?_cons_of_neg _ (by simp [h]), if_neg h, List.find?_nil]

/-- Appending one row, seen through order lookup. -/
theorem orderLookup_append_single (orders : List OrderRow) (o : OrderRow)
    (oid : String) :
    orderLookup (orders ++ [o]) oid
      = (orderLookup orders oid).or (if o.order_id = oid then some o else none) := by
  rw [orderLookup, List.find?_append]
  congr 1
  by_cases h : o.order_id = oid
  · rw [List.find?_cons_of_pos _ (by simp [h]), if_pos h]
  · rw [List.find?_cons_of_neg _ (by simp [h]), if_neg h, List.find?_nil]

/-- A single item upsert, seen through key lookup: the upserted key now
holds the staged values; other keys are untouched. -/
theorem itemLookup_upsertItemStep (items : List ItemRow) (t : StagingRow)
    (k : String × String) :
    itemLookup (upsertItemStep items t) k =
      if prodKeyOf t = k then some (mkItemRowFrom t) else itemLookup items k := by
  unfold upsertItemStep upsertOrderItem
  by_cases hex : items.any
      (fun r => r.order_id = t.order_id ∧ r.item = normItem t.item) = true
  · rw [if_pos hex]
    rw [itemLookup_map_keyfix _ (fun r => by split <;> rfl)]
    by_cases hk : prodKeyOf t = k
    · rw [if_pos hk]
      obtain ⟨r0, hr0mem, hr0⟩ := List.any_eq_true.mp hex
      simp only [decide_eq_true_eq] at hr0
      have hsome : (itemLookup items k).isSome = true :=
        (itemLookup_isSome_iff items k).mpr
          ⟨r0, hr0mem, by simp [itemKey, hr0.1, hr0.2, ← hk, prodKeyOf]⟩
      obtain ⟨r1, hr1⟩ := Option.isSome_iff_exists.mp hsome
      have hr1key : itemKey r1 = k := itemLookup_key hr1
      rw [hr1, Option.map_some']
      have h1 : r1.order_id = t.order_id := by
        have : (itemKey r1).1 = (prodKeyOf t).1 := by rw [hr1key, hk]
        exact this
      have h2 : r1.item = normItem t.item := by
        have : (itemKey r1).2 = (prodKeyOf t).2 := by rw [hr1key, hk]
        exact this
      rw [if_pos ⟨h1, h2⟩]
      have : (⟨r1.order_id, r1.item, t.quantity, t.unit_price, t.is_valid,
          t.error_message⟩ : ItemRow) = mkItemRowFrom t := by
        rw [mkItemRowFrom, h1, h2]
      exact congrArg some this
    · rw [if_neg hk]
      cases hfind : itemLookup items k with
      | none => rfl
      | some r1 =>
        rw [Option.map_some']
        have hr1key : itemKey r1 = k := itemLookup_key hfind
        have hno : ¬(r1.order_id = t.order_id ∧ r1.item = normItem t.item) := by
          intro hc
          apply hk
          rw [← hr1key]
          show prodKeyOf t = (r1.order_id, r1.item)
          rw [prodKeyOf, hc.1, hc.2]
        rw [if_neg hno]
  · rw [if_neg hex]
    rw [itemLookup_append_single]
    by_cases hk : prodKeyOf t = k
    · have hnone : itemLookup items k = none := by
        cases hfind : itemLookup items k with
        | none => rfl
        | some r1 =>
          exfalso
          apply hex
          have hr1key : itemKey r1 = k := itemLookup_key hfind
          refine List.any_eq_true.mpr ⟨r1, itemLookup_mem hfind, ?_⟩
          have h1 : r1.order_id = t.order_id := by
            have : (itemKey r1).1 = (prodKeyOf t).1 := by rw [hr1key, hk]
            exact this
          have h2 : r1.item = normItem t.item := by
            have : (itemKey r1).2 = (prodKeyOf t).2 := by rw [hr1key, hk]
            exact this
          simp [h1, h2]
      rw [hnone, Option.none_or, if_pos hk,
        if_pos (show itemKey ⟨t.order_id, normItem t.item, t.quantity,
          t.unit_price, t.is_valid, t.error_message⟩ = k from hk)]
      rfl
    · rw [if_neg hk,
        if_neg (show ¬itemKey ⟨t.order_id, normItem t.item, t.quantity,
          t.unit_price, t.is_valid, t.error_message⟩ = k from hk),
        Option.or_none]

/-- The item-upsert loop, seen through key lookup: the last staging row
for a key wins; unstaged keys keep their prior binding. -/
theorem itemLookup_upsertFold (st : List StagingRow) (items : List ItemRow)
    (k : String × String) :
    itemLookup (st.foldl upsertItemStep items) k =
      match stagedLastItem st k with
      | some t => some (mkItemRowFrom t)
      | none => itemLookup items k := by
  induction st generalizing items with
  | nil => rfl
  | cons t st' ih =>
    rw [List.foldl_cons, ih]
    have hrev : stagedLastItem (t :: st') k
        = (stagedLastItem st' k).or (List.find? (fun u => prodKeyOf u = k) [t]) := by
      rw [stagedLastItem, stagedLastItem, List.reverse_cons, List.find?_append]
    rw [hrev]
    cases hlast : stagedLastItem st' k with
    | some u => rfl
    | none =>
      simp only [Option.none_or]
      by_cases hk : prodKeyOf t = k
      · rw [List.find?_cons_of_pos _ (by simp [hk]), itemLookup_upsertItemStep,
          if_pos hk]
      · rw [List.find?_cons_of_neg _ (by simp [hk]), List.find?_nil,
          itemLookup_upsertItemStep, if_neg hk]

/-- A single order upsert, seen through key lookup. -/
theorem orderLookup_upsertOrderStep (orders : List OrderRow) (t : StagingRow)
    (oid : String) :
    orderLookup (upsertOrderStep orders t) oid =
      if t.order_id = oid then some (mkOrderRowFrom t) else orderLookup orders oid := by
  unfold upsertOrderStep upsertOrder
  by_cases hex : (orders.any (fun o => o.order_id = t.order_id)) = true
  · rw [if_pos hex]
    rw [orderLookup_map_keyfix _ (fun o => by split <;> rfl)]
    by_cases hk : t.order_id = oid
    · rw [if_pos hk]
      obtain ⟨o0, ho0mem, ho0⟩ := List.any_eq_true.mp hex
      simp only [decide_eq_true_eq] at ho0
      have hsome : (orderLookup orders oid).isSome = true :=
        (orderLookup_isSome_iff orders oid).mpr ⟨o0, ho0mem, by rw [ho0, hk]⟩
      obtain ⟨o1, ho1⟩ := Option.isSome_iff_exists.mp hsome
      have ho1key : o1.order_id = oid := orderLookup_key ho1
      rw [ho1, Option.map_some', if_pos (ho1key.trans hk.symm)]
      have : (⟨o1.order_id, t.customer_id, t.order_date⟩ : OrderRow)
          = mkOrderRowFrom t := by
        rw [mkOrderRowFrom, ho1key, hk]
      exact congrArg some this
    · rw [if_neg hk]
      cases hfind : orderLookup orders oid with
      | none => rfl
      | some o1 =>
        rw [Option.map_some']
        have ho1key : o1.order_id = oid := orderLookup_key hfind
        rw [if_neg (fun hc => hk (by rw [← ho1key, hc]))]
  · rw [if_neg hex]
    rw [orderLookup_append_single]
    by_cases hk : t.order_id = oid
    · have hnone : orderLookup orders oid = none := by
        cases hfind : orderLookup orders oid with
        | none => rfl
        | some o1 =>
          exfalso
          apply hex
          have ho1key : o1.order_id = oid := orderLookup_key hfind
          exact List.any_eq_true.mpr
            ⟨o1, orderLookup_mem hfind, by simp [ho1key, hk]⟩
      rw [hnone, Option.none_or, if_pos hk,
        if_pos (show OrderRow.order_id ⟨t.order_id, t.customer_id, t.order_date⟩
          = oid from hk)]
      rfl
    · rw [if_neg hk,
        if_neg (show ¬OrderRow.order_id ⟨t.order_id, t.customer_id, t.order_date⟩
          = oid from hk),
        Option.or_none]

/-- The order-upsert loop, seen through key lookup. -/
theorem orderLookup_upsertFold (st : List StagingRow) (orders : List OrderRow)
    (oid : String) :
    orderLookup (st.foldl upsertOrderStep orders) oid =
      match stagedLastOrder st oid with
      | some t => some (mkOrderRowFrom t)
      | none => orderLookup orders oid := by
  induction st generalizing orders with
  | nil => rfl
  | cons t st' ih =>
    rw [List.foldl_cons, ih]
    have hrev : stagedLastOrder (t :: st') oid
        = (stagedLastOrder st' oid).or (List.find? (fun u => u.order_id = oid) [t]) := by
      rw [stagedLastOrder, stagedLastOrder, List.reverse_cons, List.find?_append]
    rw [hrev]
    cases hlast : stagedLastOrder st' oid with
    | some u => rfl
    | none =>
      simp only [Option.none_or]
      by_cases hk : t.order_id = oid
      · rw [List.find?_cons_of_pos _ (by simp [hk]), orderLookup_upsertOrderStep,
          if_pos hk]
      · rw [List.find?_cons_of_neg _ (by simp [hk]), List.find?_nil,
          orderLookup_upsertOrderStep, if_neg hk]

/-- The orders of the full upsert loop are the fold of the order steps. -/
theorem upsertAll_orders (st : List StagingRow) (s : Store) :
    (upsertAll s st).orders = st.foldl upsertOrderStep s.orders := by
  induction st generalizing s with
  | nil => rfl
  | cons t st' ih =>
    rw [upsertAll, List.foldl_cons, List.foldl_cons, ← upsertAll]
    exact ih _

/-- The items of the full upsert loop are the fold of the item steps. -/
theorem upsertAll_items (st : List StagingRow) (s : Store) :
    (upsertAll s st).order_items = st.foldl upsertItemStep s.order_items := by
  induction st generalizing s with
  | nil => rfl
  | cons t st' ih =>
    rw [upsertAll, List.foldl_cons, List.foldl_cons, ← upsertAll]
    exact ih _

/-- The items persisted by a sync: upsert everything, then keep only the
keys the `NOT IN` delete does not remove. -/
theorem syncStore_order_items (s : Store) (st : List StagingRow) :
    (syncStore s st).order_items
      = (st.foldl upsertItemStep s.order_items).filter (keepItem st) := by
  have h : (syncStore s st).order_items
      = (upsertAll s st).order_items.filter (keepItem st) := rfl
  rw [h, upsertAll_items]

/-- The orders persisted by a sync: upsert everything, then keep only
orders still referenced by a persisted item. -/
theorem syncStore_orders (s : Store) (st : List StagingRow) :
    (syncStore s st).orders
      = (st.foldl upsertOrderStep s.orders).filter
          (fun o => (syncStore s st).order_items.any (fun r => r.order_id = o.order_id)) := by
  have h : (syncStore s st).orders
      = (upsertAll s st).orders.filter
          (fun o => (syncStore s st).order_items.any (fun r => r.order_id = o.order_id)) := rfl
  rw [h, upsertAll_orders]

/-- Master characterization of the persisted items after a sync, key by
key: a key survives iff `keepItem` holds of it; a staged key holds the
last staged values; an unstaged surviving key keeps its prior row. -/
theorem syncStore_itemLookup (s : Store) (st : List StagingRow) (k : String × String) :
    itemLookup (syncStore s st).order_items k =
      if keepKey st k then
        match stagedLastItem st k with
        | some t => some (mkItemRowFrom t)
        | none => itemLookup s.order_items k
      else none := by
  rw [syncStore_order_items]
  have hpred : (st.foldl upsertItemStep s.order_items).filter (keepItem st)
      = (st.foldl upsertItemStep s.order_items).filter (fun r => keepKey st (itemKey r)) := rfl
  rw [hpred, itemLookup_filter_keydep, itemLookup_upsertFold]

/-- Master characterization of the persisted orders after a sync. -/
theorem syncStore_orderLookup (s : Store) (st : List StagingRow) (oid : String) :
    orderLookup (syncStore s st).orders oid =
      if (syncStore s st).order_items.any (fun r => r.order_id = oid) then
        match stagedLastOrder st oid with
        | some t => some (mkOrderRowFrom t)
        | none => orderLookup s.orders oid
      else none := by
  rw [syncStore_orders,
    orderLookup_filter_keydep
      (fun x => (syncStore s st).order_items.any (fun r => r.order_id = x)),
    orderLookup_upsertFold]

/-- Or-form of the item characterization: staged values override the
prior binding. -/
theorem syncStore_itemLookup_or (s : Store) (st : List StagingRow) (k : String × String) :
    itemLookup (syncStore s st).order_items k =
      if keepKey st k then
        ((stagedLastItem st k).map mkItemRowFrom).or (itemLookup s.order_items k)
      else none := by
  rw [syncStore_itemLookup]
  cases stagedLastItem st k <;> rfl

/-- Or-form of the order characterization. -/
theorem syncStore_orderLookup_or (s : Store) (st : List StagingRow) (oid : String) :
    orderLookup (syncStore s st).orders oid =
      if (syncStore s st).order_items.any (fun r => r.order_id = oid) then
        ((stagedLastOrder st oid).map mkOrderRowFrom).or (orderLookup s.orders oid)
      else none := by
  rw [syncStore_orderLookup]
  cases stagedLastOrder st oid <;> rfl

/-- A last-staged row for an order id has that id and is staged. -/
theorem stagedLastOrder_eq_some {st : List StagingRow} {oid : String}
    {t : StagingRow} (h : stagedLastOrder st oid = some t) :
    t.order_id = oid ∧ t ∈ st := by
  refine ⟨?_, List.mem_reverse.mp (List.mem_of_find?_eq_some h)⟩
  have := List.find?_some h
  simpa using this

/-- An order id has a last-staged row iff some staging row carries it. -/
theorem stagedLastOrder_isSome_iff (st : List StagingRow) (oid : String) :
    (stagedLastOrder st oid).isSome = true ↔ ∃ t ∈ st, t.order_id = oid := by
  rw [stagedLastOrder, List.find?_isSome]
  simp [List.mem_reverse]

/-- A single item upsert preserves key uniqueness. -/
theorem upsertItemStep_keys_nodup {items : List ItemRow} (t : StagingRow)
    (h : (items.map itemKey).Nodup) :
    ((upsertItemStep items t).map itemKey).Nodup := by
  unfold upsertItemStep upsertOrderItem
  by_cases hex : items.any
      (fun r => r.order_id = t.order_id ∧ r.item = normItem t.item) = true
  · rw [if_pos hex]
    have : (items.map (fun r =>
        if r.order_id = t.order_id ∧ r.item = normItem t.item then
          { r with quantity := t.quantity, unit_price := t.unit_price,
                   is_valid := t.is_valid, error_message := t.error_message }
        else r)).map itemKey = items.map itemKey := by
      rw [List.map_map]
      exact List.map_congr_left (fun r _ => by rw [Function.comp_apply]; split <;> rfl)
    rw [this]
    exact h
  · rw [if_neg hex]
    rw [List.map_append]
    rw [List.nodup_append]
    refine ⟨h, List.nodup_singleton _, ?_⟩
    intro k hk1 hk2
    simp only [List.map_cons, List.map_nil, List.mem_singleton] at hk2
    obtain ⟨r, hrmem, hrkey⟩ := List.mem_map.mp hk1
    apply hex
    refine List.any_eq_true.mpr ⟨r, hrmem, ?_⟩
    have : itemKey r = (t.order_id, normItem t.item) := by rw [hrkey, hk2]; rfl
    have h1 : r.order_id = t.order_id := congrArg Prod.fst this
    have h2 : r.item = normItem t.item := congrArg Prod.snd this
    simp [h1, h2]

/-- A single order upsert preserves key uniqueness. -/
theorem upsertOrderStep_keys_nodup {orders : List OrderRow} (t : StagingRow)
    (h : (orders.map OrderRow.order_id).Nodup) :
    ((upsertOrderStep orders t).map OrderRow.order_id).Nodup := by
  unfold upsertOrderStep upsertOrder
  by_cases hex : (orders.any (fun o => o.order_id = t.order_id)) = true
  · rw [if_pos hex]
    have : (orders.map (fun o =>
        if o.order_id = t.order_id then
          { o with customer_id := t.customer_id, order_date := t.order_date }
        else o)).map OrderRow.order_id = orders.map OrderRow.order_id := by
      rw [List.map_map]
      exact List.map_congr_left (fun o _ => by rw [Function.comp_apply]; split <;> rfl)
    rw [this]
    exact h
  · rw [if_neg hex]
    rw [List.map_append, List.nodup_append]
    refine ⟨h, List.nodup_singleton _, ?_⟩
    intro x hx1 hx2
    simp only [List.map_cons, List.map_nil, List.mem_singleton] at hx2
    obtain ⟨o, homem, hokey⟩ := List.mem_map.mp hx1
    apply hex
    exact List.any_eq_true.mpr ⟨o, homem, by simp [hokey, hx2]⟩

/-- The upsert loops preserve key uniqueness. -/
theorem foldl_upsertItem_keys_nodup (st : List StagingRow) {items : List ItemRow}
    (h : (items.map itemKey).Nodup) :
    ((st.foldl upsertItemStep items).map itemKey).Nodup := by
  induction st generalizing items with
  | nil => exact h
  | cons t st' ih => exact ih (upsertItemStep_keys_nodup t h)

/-- The order-upsert loop preserves key uniqueness. -/
theorem foldl_upsertOrder_keys_nodup (st : List StagingRow) {orders : List OrderRow}
    (h : (orders.map OrderRow.order_id).Nodup) :
    ((st.foldl upsertOrderStep orders).map OrderRow.order_id).Nodup := by
  induction st generalizing orders with
  | nil => exact h
  | cons t st' ih => exact ih (upsertOrderStep_keys_nodup t h)

/-- A whole sync preserves the schema's key uniqueness. -/
theorem syncStore_wellFormed (s : Store) (st : List StagingRow)
    (hs : wellFormed s) : wellFormed (syncStore s st) := by
  constructor
  · rw [syncStore_orders]
    exact ((List.filter_sublist _).map OrderRow.order_id).nodup
      (foldl_upsertOrder_keys_nodup st hs.1)
  · rw [syncStore_order_items]
    exact ((List.filter_sublist _).map itemKey).nodup
      (foldl_upsertItem_keys_nodup st hs.2)

/-- With unique keys, membership is key lookup. -/
theorem mem_iff_itemLookup {items : List ItemRow}
    (h : (items.map itemKey).Nodup) (r : ItemRow) :
    r ∈ items ↔ itemLookup items (itemKey r) = some r := by
  constructor
  · intro hmem
    induction items with
    | nil => cases hmem
    | cons a t ih =>
      rcases List.mem_cons.mp hmem with heq | htail
      · subst heq
        rw [itemLookup, List.find?_cons_of_pos _ (by simp)]
      · by_cases hkey : itemKey a = itemKey r
        · exfalso
          have : itemKey r ∈ t.map itemKey := List.mem_map.mpr ⟨r, htail, rfl⟩
          rw [List.map_cons] at h
          exact (List.nodup_cons.mp h).1 (hkey ▸ this)
        · rw [itemLookup, List.find?_cons_of_neg _ (by simp [hkey])]
          exact ih ((List.map_cons _ _ _ ▸ h : (itemKey a :: t.map itemKey).Nodup).of_cons) htail
  · exact itemLookup_mem

/-- With unique keys, order membership is key lookup. -/
theorem mem_iff_orderLookup {orders : List OrderRow}
    (h : (orders.map OrderRow.order_id).Nodup) (o : OrderRow) :
    o ∈ orders ↔ orderLookup orders o.order_id = some o := by
  constructor
  · intro hmem
    induction orders with
    | nil => cases hmem
    | cons a t ih =>
      rcases List.mem_cons.mp hmem with heq | htail
      · subst heq
        rw [orderLookup, List.find?_cons_of_pos _ (by simp)]
      · by_cases hkey : a.order_id = o.order_id
        · exfalso
          have : o.order_id ∈ t.map OrderRow.order_id := List.mem_map.mpr ⟨o, htail, rfl⟩
          rw [List.map_cons] at h
          exact (List.nodup_cons.mp h).1 (hkey ▸ this)
        · rw [orderLookup, List.find?_cons_of_neg _ (by simp [hkey])]
          exact ih ((List.map_cons _ _ _ ▸ h :
            (a.order_id :: t.map OrderRow.order_id).Nodup).of_cons) htail
  · exact orderLookup_mem

/-- An item list references an order id iff some key with that first
component has a successful lookup. -/
theorem any_oid_iff_lookup (items : List ItemRow) (oid : String) :
    items.any (fun r => r.order_id = oid) = true
      ↔ ∃ k : String × String, k.1 = oid ∧ (itemLookup items k).isSome = true := by
  rw [List.any_eq_true]
  constructor
  · rintro ⟨r, hrmem, hr⟩
    refine ⟨itemKey r, by simpa using hr, ?_⟩
    exact (itemLookup_isSome_iff _ _).mpr ⟨r, hrmem, rfl⟩
  · rintro ⟨k, hk1, hk2⟩
    obtain ⟨r, hr⟩ := Option.isSome_iff_exists.mp hk2
    refine ⟨r, itemLookup_mem hr, ?_⟩
    have : r.order_id = k.1 := congrArg Prod.fst (itemLookup_key hr)
    simp [this, hk1]

/-- Unfolding `applySync` on an aborted staging load. -/
theorem applySync_of_stage_none {s : Store} {B : List ValidatedRecord}
    (h : stageBatch B = none) : applySync s B = s := by
  rw [applySync, _incremental_sync, h]
  rfl

/-- Unfolding `applySync` on a successful staging load whose staged
`order_id` keys are all accepted by the rowid column. -/
theorem applySync_of_stage_some {s : Store} {B : List ValidatedRecord}
    {st : List StagingRow} (h : stageBatch B = some st)
    (hk : st.all (fun t => intLikeKey t.order_id) = true) :
    applySync s B = syncStore s st := by
  rw [applySync, _incremental_sync, h]
  show (if st.all (fun t => intLikeKey t.order_id) = true
      then some (syncStore s st) else none).getD s = syncStore s st
  rw [if_pos hk]
  rfl

/-- Unfolding `applySync` on a staged batch with a rejected `order_id`
key: the `datatype mismatch` abort rolls back. -/
theorem applySync_of_key_reject {s : Store} {B : List ValidatedRecord}
    {st : List StagingRow} (h : stageBatch B = some st)
    (hk : ¬ st.all (fun t => intLikeKey t.order_id) = true) :
    applySync s B = s := by
  rw [applySync, _incremental_sync, h]
  show (if st.all (fun t => intLikeKey t.order_id) = true
      then some (syncStore s st) else none).getD s = s
  rw [if_neg hk]
  rfl

/-- Every persisted item of a synced store satisfies the keep predicate
and its order id is staged. -/
theorem syncStore_item_mem_staged {s : Store} {st : List StagingRow} {r : ItemRow}
    (h : r ∈ (syncStore s st).order_items) : ∃ t ∈ st, t.order_id = r.order_id := by
  rw [syncStore_order_items] at h
  have hkeep := List.of_mem_filter h
  obtain ⟨t, htmem, ht⟩ := List.any_eq_true.mp hkeep
  simp only [decide_eq_true_eq] at ht
  exact ⟨t, htmem, ht.1⟩

/-- C6: incremental sync is idempotent — syncing the identical batch a
second time leaves the persisted `orders` and `order_items` tables with
exactly the same rows (the batch stages identically, every re-upsert
rewrites the values already present, and the deletes remove exactly the
rows the first run already removed). -/
theorem c6_sync_idempotent (s : Store) (B : List ValidatedRecord)
    (hs : wellFormed s) :
    (∀ r : ItemRow, r ∈ (applySync (applySync s B) B).order_items
        ↔ r ∈ (applySync s B).order_items) ∧
    (∀ o : OrderRow, o ∈ (applySync (applySync s B) B).orders
        ↔ o ∈ (applySync s B).orders) := by
  cases hst : stageBatch B with
  | none =>
    rw [applySync_of_stage_none hst, applySync_of_stage_none hst]
    exact ⟨fun r => Iff.rfl, fun o => Iff.rfl⟩
  | some st =>
    by_cases hk : st.all (fun t => intLikeKey t.order_id) = true
    swap
    · rw [applySync_of_key_reject hst hk, applySync_of_key_reject hst hk]
      exact ⟨fun r => Iff.rfl, fun o => Iff.rfl⟩
    rw [applySync_of_stage_some hst hk, applySync_of_stage_some hst hk]
    have h1 : wellFormed (syncStore s st) := syncStore_wellFormed s st hs
    have h2 : wellFormed (syncStore (syncStore s st) st) :=
      syncStore_wellFormed _ st h1
    have hitems : ∀ k, itemLookup (syncStore (syncStore s st) st).order_items k
        = itemLookup (syncStore s st).order_items k := by
      intro k
      rw [syncStore_itemLookup_or (syncStore s st) st k, syncStore_itemLookup_or s st k]
      cases hlast : stagedLastItem st k with
      | some t => rfl
      | none =>
        rw [Option.map_none', Option.none_or, Option.none_or]
        by_cases hkeep : keepKey st k = true
        · rw [if_pos hkeep, if_pos hkeep]
        · rw [if_neg hkeep, if_neg hkeep]
    have hanyeq : ∀ oid,
        (syncStore (syncStore s st) st).order_items.any (fun r => r.order_id = oid)
          = (syncStore s st).order_items.any (fun r => r.order_id = oid) := by
      intro oid
      cases hb : (syncStore s st).order_items.any (fun r => r.order_id = oid) with
      | true =>
        obtain ⟨k, hk1, hk2⟩ := (any_oid_iff_lookup _ oid).mp hb
        exact (any_oid_iff_lookup _ oid).mpr ⟨k, hk1, by rw [hitems k]; exact hk2⟩
      | false =>
        cases hx : (syncStore (syncStore s st) st).order_items.any
            (fun r => r.order_id = oid) with
        | false => rfl
        | true =>
          obtain ⟨k, hk1, hk2⟩ := (any_oid_iff_lookup _ oid).mp hx
          rw [hitems k] at hk2
          have hb' : (syncStore s st).order_items.any (fun r => r.order_id = oid) = true :=
            (any_oid_iff_lookup _ oid).mpr ⟨k, hk1, hk2⟩
          rw [hb] at hb'
          exact Bool.noConfusion hb'
    have horders : ∀ oid, orderLookup (syncStore (syncStore s st) st).orders oid
        = orderLookup (syncStore s st).orders oid := by
      intro oid
      rw [syncStore_orderLookup_or (syncStore s st) st oid,
        syncStore_orderLookup_or s st oid, hanyeq oid]
      cases hlast : stagedLastOrder st oid with
      | some t => rfl
      | none =>
        rw [Option.map_none', Option.none_or, Option.none_or]
        by_cases hpres :
            (syncStore s st).order_items.any (fun r => r.order_id = oid) = true
        · rw [if_pos hpres, if_pos hpres]
        · rw [if_neg hpres, if_neg hpres]
    constructor
    · intro r
      rw [mem_iff_itemLookup h2.2 r, mem_iff_itemLookup h1.2 r, hitems (itemKey r)]
    · intro o
      rw [mem_iff_orderLookup h2.1 o, mem_iff_orderLookup h1.1 o, horders o.order_id]

/-- C6 (witness): idempotence instantiated on a concrete store and batch. -/
theorem c6_sync_idempotent_witness :
    (⟨"1", "Widget", some 2, some 5, true, none⟩ : ItemRow)
        ∈ (applySync (applySync exStore1 [exRecNullItem]) [exRecNullItem]).order_items
      ↔ (⟨"1", "Widget", some 2, some 5, true, none⟩ : ItemRow)
        ∈ (applySync exStore1 [exRecNullItem]).order_items :=
  (c6_sync_idempotent exStore1 [exRecNullItem] (by constructor <;> decide)).1 _


/-- A list whose rows all share one key, with unique keys and a
successful lookup, is exactly that singleton. -/
theorem eq_singleton_of_all_key {l : List ItemRow} {k : String × String}
    {r0 : ItemRow} (hall : ∀ x ∈ l, itemKey x = k)
    (hnd : (l.map itemKey).Nodup) (hl : itemLookup l k = some r0) :
    l = [r0] := by
  cases l with
  | nil => cases hl
  | cons a t =>
    have ht : t = [] := by
      cases t with
      | nil => rfl
      | cons b t' =>
        exfalso
        rw [List.map_cons, List.nodup_cons] at hnd
        apply hnd.1
        rw [hall a (by simp)]
        exact List.mem_map.mpr ⟨b, by simp, hall b (by simp)⟩
    subst ht
    rw [itemLookup, List.find?_cons_of_pos _ (by simp [hall a (by simp)])] at hl
    cases hl
    rfl

/-- Canonical integer keys are injective under integer coercion: two
canonical texts coercing to the same integer are equal. -/
theorem canon_inj {a b : String} (ha : canonIntKey a = true)
    (hb : canonIntKey b = true) (h : sqliteRowidInt a = sqliteRowidInt b) :
    a = b := by
  rw [canonIntKey] at ha hb
  cases hqa : sqliteRowidInt a with
  | none =>
    simp only [hqa] at ha
    cases ha
  | some n =>
    simp only [hqa, decide_eq_true_eq] at ha
    cases hqb : sqliteRowidInt b with
    | none =>
      simp only [hqb] at hb
      cases hb
    | some m =>
      simp only [hqb, decide_eq_true_eq] at hb
      rw [hqa, hqb] at h
      cases Option.some_inj.mp h
      rw [ha, hb]

/-- A fold of non-commit statements never changes the committed state. -/
theorem committed_const_of_no_commit (ops : List DbOp)
    (cp : FullState × FullState) (h : ∀ op ∈ ops, op ≠ DbOp.commitOp) :
    (ops.foldl dbStep cp).1 = cp.1 := by
  induction ops generalizing cp with
  | nil => rfl
  | cons op rest ih =>
    rw [List.foldl_cons, ih _ (fun o ho => h o (by simp [ho]))]
    cases op with
    | commitOp => exact absurd rfl (h _ (by simp))
    | dropStaging => rfl
    | stageRow r => rfl
    | upsertProd t => rfl
    | delMissing => rfl
    | delOrphans => rfl
    | clearStaging => rfl

/-- A fold of staging-load statements touches neither the committed state
nor the pending production tables. -/
theorem staging_phase_preserves_prod (ops : List DbOp)
    (cp : FullState × FullState)
    (h : ∀ op ∈ ops, op = DbOp.dropStaging ∨ ∃ r, op = DbOp.stageRow r) :
    (ops.foldl dbStep cp).1 = cp.1 ∧
    (ops.foldl dbStep cp).2.orders = cp.2.orders ∧
    (ops.foldl dbStep cp).2.order_items = cp.2.order_items := by
  induction ops generalizing cp with
  | nil => exact ⟨rfl, rfl, rfl⟩
  | cons op rest ih =>
    rw [List.foldl_cons]
    have hstep : (dbStep cp op).1 = cp.1 ∧ (dbStep cp op).2.orders = cp.2.orders ∧
        (dbStep cp op).2.order_items = cp.2.order_items := by
      rcases h op (by simp) with hop | ⟨r, hop⟩ <;> subst hop <;>
        exact ⟨rfl, rfl, rfl⟩
    obtain ⟨h1, h2, h3⟩ := ih (dbStep cp op) (fun o ho => h o (by simp [ho]))
    exact ⟨h1.trans hstep.1, h2.trans hstep.2.1, h3.trans hstep.2.2⟩

/-- C2: whichever statement of the sync run a failure interrupts, the
committed `orders` and `order_items` tables equal the pre-sync tables:
the only commit before the final one happens right after the staging
load, at which point the production tables are untouched, and every
production mutation sits strictly between that commit and the final
one. -/
theorem c2_failure_leaves_tables_presync (f0 : FullState)
    (B : List ValidatedRecord) (k : Nat) (hk : k < (syncOps B).length) :
    (committedAfter f0 B k).orders = f0.orders ∧
    (committedAfter f0 B k).order_items = f0.order_items := by
  have hL1mem : ∀ op ∈ DbOp.dropStaging :: B.map DbOp.stageRow,
      op = DbOp.dropStaging ∨ ∃ r, op = DbOp.stageRow r := by
    intro op hop
    rcases List.mem_cons.mp hop with h | h
    · exact Or.inl h
    · obtain ⟨r, -, hr⟩ := List.mem_map.mp h
      exact Or.inr ⟨r, hr.symm⟩
  have hL2mem : ∀ op ∈ (stagingContent B).map DbOp.upsertProd
        ++ [DbOp.delMissing, DbOp.delOrphans, DbOp.clearStaging],
      op ≠ DbOp.commitOp := by
    intro op hop
    rcases List.mem_append.mp hop with h | h
    · obtain ⟨t, -, ht⟩ := List.mem_map.mp h
      rw [← ht]
      intro hc
      cases hc
    · fin_cases h <;> (intro hc; cases hc)
  have hshape : syncOps B
      = (DbOp.dropStaging :: B.map DbOp.stageRow)
        ++ (DbOp.commitOp
          :: (((stagingContent B).map DbOp.upsertProd
            ++ [DbOp.delMissing, DbOp.delOrphans, DbOp.clearStaging])
            ++ [DbOp.commitOp])) := by
    simp [syncOps, List.append_assoc]
  set L1 : List DbOp := DbOp.dropStaging :: B.map DbOp.stageRow with hL1def
  set L2 : List DbOp := (stagingContent B).map DbOp.upsertProd
    ++ [DbOp.delMissing, DbOp.delOrphans, DbOp.clearStaging] with hL2def
  rw [committedAfter, hshape, List.take_append_eq_append_take, List.foldl_append]
  by_cases hk1 : k ≤ L1.length
  · rw [show k - L1.length = 0 from Nat.sub_eq_zero_of_le hk1, List.take_zero,
      List.foldl_nil]
    rw [committed_const_of_no_commit (List.take k L1) (f0, f0)
      (fun op hop => by
        rcases hL1mem op (List.take_subset _ _ hop) with h | ⟨r, h⟩ <;>
          (subst h; intro hc; cases hc))]
    exact ⟨rfl, rfl⟩
  · push_neg at hk1
    have hNk : k < L1.length + 1 + (L2.length + 1) := by
      rw [hshape] at hk
      simpa [List.length_append, Nat.add_assoc, Nat.add_comm, Nat.add_left_comm]
        using hk
    obtain ⟨m, hm⟩ : ∃ m, k - L1.length = m + 1 :=
      ⟨k - L1.length - 1, by omega⟩
    have hmle : m ≤ L2.length := by omega
    rw [List.take_of_length_le (le_of_lt hk1), hm, List.take_succ_cons,
      List.take_append_eq_append_take, Nat.sub_eq_zero_of_le hmle,
      List.take_zero, List.append_nil, List.foldl_cons]
    obtain ⟨hc1, hc2, hc3⟩ := staging_phase_preserves_prod L1 (f0, f0) hL1mem
    rw [committed_const_of_no_commit (List.take m L2) _
      (fun op hop => hL2mem op (List.take_subset _ _ hop))]
    exact ⟨hc2, hc3⟩

/-- C2 (witness): the rollback property at a concrete store, batch and
failure point (three statements in: mid staging load). -/
theorem c2_failure_leaves_tables_presync_witness :
    (committedAfter exFullState [exRecNullItem] 3).orders = exFullState.orders ∧
    (committedAfter exFullState [exRecNullItem] 3).order_items
      = exFullState.order_items :=
  c2_failure_leaves_tables_presync exFullState [exRecNullItem] 3 (by decide)

/-- `firstSome` returns the value of the first succeeding parser. -/
theorem firstSome_eq_of_first (fs : List (String → Option PyDate)) (t : String)
    (i : Nat) (fi : String → Option PyDate) (d : PyDate)
    (hfi : fs[i]? = some fi) (hd : fi t = some d)
    (hprev : ∀ j fj, j < i → fs[j]? = some fj → fj t = none) :
    firstSome fs t = some d := by
  induction fs generalizing i with
  | nil => cases hfi
  | cons f rest ih =>
    cases i with
    | zero =>
      rw [List.getElem?_cons_zero] at hfi
      cases hfi
      rw [firstSome, hd]
    | succ i' =>
      have hf : f t = none :=
        hprev 0 f (Nat.succ_pos i') List.getElem?_cons_zero
      rw [firstSome, hf]
      rw [List.getElem?_cons_succ] at hfi
      exact ih i' hfi (fun j fj hj hfj =>
        hprev (j + 1) fj (Nat.succ_lt_succ hj) (by rw [List.getElem?_cons_succ]; exact hfj))

/-- `firstSome` fails when every parser fails. -/
theorem firstSome_eq_none (fs : List (String → Option PyDate)) (t : String)
    (h : ∀ (i : Nat) (fi : String → Option PyDate), fs[i]? = some fi → fi t = none) :
    firstSome fs t = none := by
  induction fs with
  | nil => rfl
  | cons f rest ih =>
    rw [firstSome, h 0 f List.getElem?_cons_zero]
    exact ih (fun i fi hfi => h (i + 1) fi (by rw [List.getElem?_cons_succ]; exact hfi))

/-- Every date format fails on the empty string. -/
theorem dateFormats_empty_none : ∀ (i : Nat) (fi : String → Option PyDate),
    dateFormats[i]? = some fi → fi "" = none := by
  intro i fi h
  rcases i with _ | _ | _ | _ | i
  · rw [show dateFormats[0]? = some parseISO from rfl] at h
    cases h
    decide
  · rw [show dateFormats[1]? = some parseDMY from rfl] at h
    cases h
    decide
  · rw [show dateFormats[2]? = some parseYMD from rfl] at h
    cases h
    decide
  · rw [show dateFormats[3]? = some parseBdY from rfl] at h
    cases h
    decide
  · rw [show dateFormats[i + 4]? = none from by
      rw [dateFormats]
      apply List.getElem?_eq_none
      simp] at h
    cases h

/-- C7: `_parse_date` tries the four formats in their fixed order — ISO,
day/month/year with slashes, year/month/day with slashes, then full month
name — and the first success wins; when every format fails, the record's
date is null and the accumulated error list carries the date error. -/
theorem c7_date_format_order (v : String) :
    (∀ (i : Nat) (fi : String → Option PyDate) (d : PyDate),
      dateFormats[i]? = some fi → fi (pyStrip v) = some d →
      (∀ (j : Nat) (fj : String → Option PyDate), j < i →
        dateFormats[j]? = some fj → fj (pyStrip v) = none) →
      _parse_date (some v) = some d) ∧
    ((∀ (i : Nat) (fi : String → Option PyDate),
        dateFormats[i]? = some fi → fi (pyStrip v) = none) →
      _parse_date (some v) = none ∧
      ∀ row : RawRow, row.date = some v →
        (_validate_row row).date = none ∧
        "Invalid or missing date" ∈ rowErrors row) := by
  have hdate_none : (∀ (i : Nat) (fi : String → Option PyDate),
      dateFormats[i]? = some fi → fi (pyStrip v) = none) →
      _parse_date (some v) = none := by
    intro hall
    by_cases hv : v = ""
    · subst hv
      rfl
    · simp only [_parse_date, if_neg hv]
      exact firstSome_eq_none dateFormats (pyStrip v) hall
  constructor
  · intro i fi d hfi hd hprev
    by_cases hv : v = ""
    · exfalso
      subst hv
      rw [show pyStrip "" = "" from rfl] at hd
      rw [dateFormats_empty_none i fi hfi] at hd
      cases hd
    · simp only [_parse_date, if_neg hv]
      exact firstSome_eq_of_first dateFormats (pyStrip v) i fi d hfi hd hprev
  · intro hall
    refine ⟨hdate_none hall, fun row hrow => ?_⟩
    have hpd : _parse_date row.date = none := by
      rw [hrow]
      exact hdate_none hall
    constructor
    · exact hpd
    · rw [rowErrors]
      simp [hpd]

/-- C7 (witness): the first-wins clause on `"01/02/2025"` (the ISO format
fails, the day/month/year format succeeds, reading day 1 month 2), and
the all-fail clause on `"99/99/9999"`. -/
theorem c7_date_format_order_witness :
    _parse_date (some "01/02/2025") = some ⟨2025, 2, 1⟩ ∧
    _parse_date (some "99/99/9999") = none ∧
    "Invalid or missing date" ∈ rowErrors
      ⟨some "A1", some "7", some "Widget", some "2", some "9.99",
       some "99/99/9999"⟩ := by
  refine ⟨(c7_date_format_order "01/02/2025").1 1 parseDMY ⟨2025, 2, 1⟩ rfl
      (by decide) ?_, ?_, ?_⟩
  · intro j fj hj hfj
    interval_cases j
    · rw [show dateFormats[0]? = some parseISO from rfl] at hfj
      cases hfj
      decide
  · exact ((c7_date_format_order "99/99/9999").2 (by
      intro i fi h
      rcases i with _ | _ | _ | _ | i
      · rw [show dateFormats[0]? = some parseISO from rfl] at h
        cases h
        decide
      · rw [show dateFormats[1]? = some parseDMY from rfl] at h
        cases h
        decide
      · rw [show dateFormats[2]? = some parseYMD from rfl] at h
        cases h
        decide
      · rw [show dateFormats[3]? = some parseBdY from rfl] at h
        cases h
        decide
      · rw [show dateFormats[i + 4]? = none from by
          rw [dateFormats]
          apply List.getElem?_eq_none
          simp] at h
        cases h)).1
  · exact (((c7_date_format_order "99/99/9999").2 (by
      intro i fi h
      rcases i with _ | _ | _ | _ | i
      · rw [show dateFormats[0]? = some parseISO from rfl] at h
        cases h
        decide
      · rw [show dateFormats[1]? = some parseDMY from rfl] at h
        cases h
        decide
      · rw [show dateFormats[2]? = some parseYMD from rfl] at h
        cases h
        decide
      · rw [show dateFormats[3]? = some parseBdY from rfl] at h
        cases h
        decide
      · rw [show dateFormats[i + 4]? = none from by
          rw [dateFormats]
          apply List.getElem?_eq_none
          simp] at h
        cases h)).2
      ⟨some "A1", some "7", some "Widget", some "2", some "9.99",
       some "99/99/9999"⟩ rfl).2

/-- An export element carries its order's id. -/
theorem exportRecOf_some_oid {s : Store} {o : OrderRow} {e : ExportRecord}
    (h : exportRecOf s o = some e) : e.order_id = o.order_id := by
  rw [exportRecOf] at h
  by_cases hempty : (exportItemsOf s o.order_id).isEmpty = true
  · rw [if_pos hempty] at h
    cases h
  · rw [if_neg hempty] at h
    cases h
    rfl

/-- An order is exported exactly when it has at least one item row. -/
theorem exportRecOf_isSome_iff (s : Store) (o : OrderRow) :
    (exportRecOf s o).isSome = true ↔ ∃ r ∈ s.order_items, r.order_id = o.order_id := by
  rw [exportRecOf]
  by_cases hempty : (exportItemsOf s o.order_id).isEmpty = true
  · rw [if_pos hempty]
    constructor
    · intro h
      cases h
    · rintro ⟨r, hrmem, hr⟩
      exfalso
      rw [List.isEmpty_iff, exportItemsOf, List.filter_eq_nil_iff] at hempty
      exact hempty r hrmem (by simp [hr])
  · rw [if_neg hempty]
    simp only [Option.isSome_some, true_iff]
    rw [List.isEmpty_iff, exportItemsOf] at hempty
    obtain ⟨r, hrmem⟩ := List.exists_mem_of_ne_nil _ hempty
    have := List.of_mem_filter hrmem
    exact ⟨r, List.mem_of_mem_filter hrmem, by simpa using this⟩

/-- With unique order ids, the export holds exactly one element for an
order that has a child. -/
theorem export_count_one {s : Store} {l : List OrderRow}
    (hnd : (l.map OrderRow.order_id).Nodup) {oid : String} {o0 : OrderRow}
    (ho0 : o0 ∈ l) (hoid : o0.order_id = oid)
    (hsome : (exportRecOf s o0).isSome = true) :
    ((l.filterMap (exportRecOf s)).filter (fun e => e.order_id = oid)).length = 1 := by
  induction l with
  | nil => cases ho0
  | cons o t ih =>
    rw [List.map_cons, List.nodup_cons] at hnd
    rcases List.mem_cons.mp ho0 with heq | htail
    · subst heq
      cases hFo : exportRecOf s o0 with
      | none => rw [hFo] at hsome; cases hsome
      | some e =>
        rw [List.filterMap_cons_some hFo,
          List.filter_cons_of_pos (by simp [exportRecOf_some_oid hFo, hoid]),
          List.length_cons]
        have hzero : ((t.filterMap (exportRecOf s)).filter
            (fun e => e.order_id = oid)).length = 0 := by
          rw [List.length_eq_zero, List.filter_eq_nil_iff]
          intro e' he'
          obtain ⟨o', ho'mem, ho'⟩ := List.mem_filterMap.mp he'
          simp only [decide_eq_true_eq]
          rw [exportRecOf_some_oid ho']
          intro hc
          exact hnd.1 (by
            rw [← hoid] at hc
            rw [← hc]
            exact List.mem_map.mpr ⟨o', ho'mem, rfl⟩)
        omega
    · have hne : o.order_id ≠ oid := by
        intro hc
        refine hnd.1 ?_
        rw [hc, ← hoid]
        exact List.mem_map.mpr ⟨o0, htail, rfl⟩
      cases hFo : exportRecOf s o with
      | none =>
        rw [List.filterMap_cons_none hFo]
        exact ih hnd.2 htail
      | some e =>
        rw [List.filterMap_cons_some hFo,
          List.filter_cons_of_neg (by simp [exportRecOf_some_oid hFo, hne])]
        exact ih hnd.2 htail

/-- The total of an exported element is the rounded qualifying sum of its
order's children. -/
theorem exportRecOf_total {s : Store} {o : OrderRow} {e : ExportRecord}
    (h : exportRecOf s o = some e) :
    e.total_price = round2 (orderTotalSum s o.order_id) := by
  rw [exportRecOf] at h
  by_cases hempty : (exportItemsOf s o.order_id).isEmpty = true
  · rw [if_pos hempty] at h
    cases h
  · rw [if_neg hempty] at h
    cases h
    show round2 _ = round2 (orderTotalSum s o.order_id)
    congr 1
    rw [orderTotalSum, qualifyingItems, exportItemsOf, List.filter_filter]
    congr 1
    congr 1
    apply List.filter_congr
    intro r _
    by_cases h1 : r.order_id = o.order_id <;> by_cases h2 : qualifies r = true <;>
      simp [h1, h2]

/-- C8: the export has exactly one element per parent with at least one
child; parents with no children are omitted entirely; every element's
`total_price` is the rounded sum of `quantity * unit_price` over exactly
its non-placeholder children with non-null quantity and unit price. -/
theorem c8_export_shape (s : Store)
    (hnd : (s.orders.map OrderRow.order_id).Nodup) :
    (∀ o ∈ s.orders, (∃ r ∈ s.order_items, r.order_id = o.order_id) →
      ((export_json s).filter (fun e => e.order_id = o.order_id)).length = 1) ∧
    (∀ o ∈ s.orders, (∀ r ∈ s.order_items, r.order_id ≠ o.order_id) →
      ∀ e ∈ export_json s, e.order_id ≠ o.order_id) ∧
    (∀ e ∈ export_json s, (∃ r ∈ s.order_items, r.order_id = e.order_id) ∧
      e.total_price = round2 (orderTotalSum s e.order_id)) := by
  refine ⟨?_, ?_, ?_⟩
  · intro o ho hchild
    exact export_count_one hnd ho rfl ((exportRecOf_isSome_iff s o).mpr hchild)
  · intro o ho hnochild e he hc
    obtain ⟨o', ho'mem, ho'⟩ := List.mem_filterMap.mp he
    have h1 : e.order_id = o'.order_id := exportRecOf_some_oid ho'
    obtain ⟨r, hrmem, hr⟩ := (exportRecOf_isSome_iff s o').mp (by rw [ho']; rfl)
    exact hnochild r hrmem (by rw [hr, ← h1, hc])
  · intro e he
    obtain ⟨o', ho'mem, ho'⟩ := List.mem_filterMap.mp he
    have h1 : e.order_id = o'.order_id := exportRecOf_some_oid ho'
    refine ⟨?_, by rw [h1]; exact exportRecOf_total ho'⟩
    obtain ⟨r, hrmem, hr⟩ := (exportRecOf_isSome_iff s o').mp (by rw [ho']; rfl)
    exact ⟨r, hrmem, by rw [hr, h1]⟩

/-- C8 (witness): the shape clauses at a concrete one-order store. -/
theorem c8_export_shape_witness :
    ((export_json exStore1).filter (fun e => e.order_id = "1")).length = 1 ∧
    ∀ e ∈ export_json exStore1,
      e.total_price = round2 (orderTotalSum exStore1 e.order_id) := by
  have h := c8_export_shape exStore1 (by decide)
  refine ⟨h.1 ⟨"1", some "C9", some ⟨2025, 1, 1⟩⟩ (List.Mem.head _)
    ⟨⟨"1", "Widget", some 2, some 5, true, none⟩, List.Mem.head _, rfl⟩, ?_⟩
  intro e he
  exact (h.2.2 e he).2


/-- Mapped projections of two `filterMap`s agree when they agree
pointwise on the list. -/
theorem map_filterMap_congr {α β γ : Type} (F G : α → Option β) (proj : β → γ)
    (l : List α) (h : ∀ a ∈ l, (F a).map proj = (G a).map proj) :
    (l.filterMap F).map proj = (l.filterMap G).map proj := by
  induction l with
  | nil => rfl
  | cons a t ih =>
    have ha := h a (by simp)
    have ht := ih (fun x hx => h x (by simp [hx]))
    cases hF : F a with
    | none =>
      rw [hF, Option.map_none'] at ha
      cases hG : G a with
      | none =>
        rw [List.filterMap_cons_none hF, List.filterMap_cons_none hG]
        exact ht
      | some b =>
        rw [hG, Option.map_some'] at ha
        cases ha
    | some b =>
      rw [hF, Option.map_some'] at ha
      cases hG : G a with
      | none =>
        rw [hG, Option.map_none'] at ha
        cases ha
      | some c =>
        rw [hG, Option.map_some'] at ha
        rw [List.filterMap_cons_some hF, List.filterMap_cons_some hG,
          List.map_cons, List.map_cons, ht, Option.some.inj ha]

/-- Rewriting each element before filtering changes neither the filter's
verdicts nor the mapped image, when the rewrite is invisible to both. -/
theorem filter_map_invariant {α γ : Type} (u : α → α) (p : α → Bool) (m : α → γ)
    (hp : ∀ a, p (u a) = p a) (hm : ∀ a, m (u a) = m a) (l : List α) :
    ((l.map u).filter p).map m = (l.filter p).map m := by
  induction l with
  | nil => rfl
  | cons a t ih =>
    rw [List.map_cons]
    by_cases h : p a = true
    · rw [List.filter_cons_of_pos ((hp a).trans h), List.filter_cons_of_pos h,
        List.map_cons, List.map_cons, ih, hm]
    · rw [List.filter_cons_of_neg (fun hc => h ((hp a).symm.trans hc)),
        List.filter_cons_of_neg h, ih]

/-- Rewriting each element before filtering preserves emptiness of the
filtered list, when the rewrite is invisible to the predicate. -/
theorem filter_isEmpty_invariant {α : Type} (u : α → α) (p : α → Bool)
    (hp : ∀ a, p (u a) = p a) (l : List α) :
    ((l.map u).filter p).isEmpty = (l.filter p).isEmpty := by
  induction l with
  | nil => rfl
  | cons a t ih =>
    rw [List.map_cons]
    by_cases h : p a = true
    · rw [List.filter_cons_of_pos ((hp a).trans h), List.filter_cons_of_pos h]
      rfl
    · rw [List.filter_cons_of_neg (fun hc => h ((hp a).symm.trans hc)),
        List.filter_cons_of_neg h, ih]

/-- The active item rows of one order after a validity rewrite: the same
rows, each with its verdict rewritten. -/
theorem exportItemsOf_mapValidity (f : ItemRow → Bool)
    (g : ItemRow → Option String) (s : Store) (oid : String) :
    exportItemsOf (mapValidity f g s) oid
      = (exportItemsOf s oid).map
          (fun r => { r with is_valid := f r, error_message := g r }) := by
  show (s.order_items.map _).filter _ = (s.order_items.filter _).map _
  rw [List.filter_map]
  congr 1

/-- The export element of one order keeps its id and total under a
validity rewrite. -/
theorem exportRec_pair_mapValidity (f : ItemRow → Bool)
    (g : ItemRow → Option String) (s : Store) (o : OrderRow) :
    (exportRecOf (mapValidity f g s) o).map (fun e => (e.order_id, e.total_price))
      = (exportRecOf s o).map (fun e => (e.order_id, e.total_price)) := by
  have hemp : ∀ (l : List ItemRow) (u : ItemRow → ItemRow),
      (l.map u).isEmpty = l.isEmpty := fun l u => by cases l <;> rfl
  simp only [exportRecOf]
  rw [exportItemsOf_mapValidity]
  by_cases h : (exportItemsOf s o.order_id).isEmpty = true
  · rw [if_pos ((hemp _ _).trans h), if_pos h]
  · rw [if_neg (fun hc => h ((hemp _ _).symm.trans hc)), if_neg h,
      Option.map_some', Option.map_some']
    exact congrArg Option.some
      (congrArg (fun q => (o.order_id, round2 q)) (congrArg List.sum
        (filter_map_invariant
          (fun r => { r with is_valid := f r, error_message := g r })
          qualifies rowValue (fun a => rfl) (fun a => rfl)
          (exportItemsOf s o.order_id))))

/-- C10: the monetary aggregations never filter on `is_valid`: rewriting
every item row's validity verdict and error message arbitrarily changes
neither `_get_total_order_values`, nor the grouped per-customer totals
behind the top-spender query, nor `_get_top_customer`, nor the export's
`(order_id, total_price)` pairs; and every reported per-order total is
exactly the sum of `quantity * unit_price` over that order's
non-placeholder fully priced rows (so an invalid but fully priced,
non-placeholder row always contributes), and every grouped customer
total is exactly that customer's joined spend sum. -/
theorem c10_aggregations_ignore_validity (s : Store)
    (f : ItemRow → Bool) (g : ItemRow → Option String) :
    _get_total_order_values (mapValidity f g s) = _get_total_order_values s ∧
    custTotals (mapValidity f g s) = custTotals s ∧
    _get_top_customer (mapValidity f g s) = _get_top_customer s ∧
    (export_json (mapValidity f g s)).map (fun e => (e.order_id, e.total_price))
      = (export_json s).map (fun e => (e.order_id, e.total_price)) ∧
    (∀ e ∈ _get_total_order_values s, e.2.2 = orderTotalSum s e.1) ∧
    (∀ e ∈ custTotals s, e.2 = custSpendSum s e.1) := by
  have hpairs : customerPairs (mapValidity f g s) = customerPairs s := by
    show s.orders.flatMap _ = s.orders.flatMap _
    refine congrArg (fun F => s.orders.flatMap F) (funext fun o => ?_)
    show ((s.order_items.map _).filter _).map _ = _
    refine filter_map_invariant
      (fun r => { r with is_valid := f r, error_message := g r }) _ _
      ?_ ?_ s.order_items
    all_goals exact fun a => rfl
  have hqe : ∀ oid : String, (qualifyingItems (mapValidity f g s) oid).isEmpty
      = (qualifyingItems s oid).isEmpty := by
    intro oid
    simp only [qualifyingItems]
    refine filter_isEmpty_invariant
      (fun r => { r with is_valid := f r, error_message := g r }) _
      ?_ s.order_items
    exact fun a => rfl
  have hqs : ∀ oid : String,
      orderTotalSum (mapValidity f g s) oid = orderTotalSum s oid := by
    intro oid
    simp only [orderTotalSum, qualifyingItems]
    refine congrArg List.sum
      (filter_map_invariant
        (fun r => { r with is_valid := f r, error_message := g r }) _ rowValue
        ?_ ?_ s.order_items)
    all_goals exact fun a => rfl
  have hcust : custTotals (mapValidity f g s) = custTotals s := by
    simp only [custTotals, custSpendSum, hpairs]
  refine ⟨?_, hcust, ?_, ?_, ?_, ?_⟩
  · show s.orders.filterMap _ = s.orders.filterMap _
    refine congrArg (fun F => s.orders.filterMap F) (funext fun o => ?_)
    rw [hqe, hqs]
  · simp only [_get_top_customer, hcust]
  · show (s.orders.filterMap (exportRecOf (mapValidity f g s))).map _
      = (s.orders.filterMap (exportRecOf s)).map _
    exact map_filterMap_congr _ _ _ s.orders
      (fun o _ => exportRec_pair_mapValidity f g s o)
  · intro e he
    simp only [_get_total_order_values, List.mem_filterMap] at he
    obtain ⟨o, _, ho⟩ := he
    by_cases hc : (qualifyingItems s o.order_id).isEmpty = true
    · rw [if_pos hc] at ho
      cases ho
    · rw [if_neg hc] at ho
      cases ho
      rfl
  · intro e he
    simp only [custTotals, List.mem_map] at he
    obtain ⟨c, _, hc⟩ := he
    cases hc
    rfl

end Pipeline
